import Mathlib

/-!
Shallow embedding of `src/frontend/src/App.js` (VideoChat single-page app)
and proofs about its handlers.

JS numbers are modelled as `Rat` (all arithmetic in the file is exact on the
values involved; no claim concerns floating-point rounding), JS `null` /
`undefined` as `Option.none`, JS `Set` as `Finset`, and the per-render React
state captured by a handler as explicit function arguments.  Backend
responses are oracles passed as parameters; the requests a handler issues
are returned as part of its outcome so that theorems can speak about them.
-/

set_option maxHeartbeats 1000000

namespace VideoChat

/-- Status strings stored in `file.status` (only these five appear in App.js). -/
inductive FStatus where
  | waiting
  | transcribing
  | done
  | error
  | interrupted
deriving DecidableEq, Repr, Inhabited

/-- One segment of a transcription: `{start, end, text}` as produced by the
backend and consumed by the transcript table. `end` is a Lean keyword, hence
the guillemets. -/
structure TransItem where
  start : Rat
  «end» : Rat
  text : String
deriving DecidableEq, Repr

/-- The fields of an uploaded-file record that App.js reads or writes. -/
structure FileRec where
  id : Nat
  name : String := ""
  mime : String := ""
  fileSize : Option Nat := none
  url : String := ""
  status : FStatus := .waiting
  transcription : Option (List TransItem) := none
  summary : Option String := none
  detailedSummary : Option String := none
  mindmapData : Option String := none
  duration : Option Rat := none
  transcribeStartAt : Option Rat := none
  transcribeProgress : Option Rat := none
  transcribeProgressCurrent : Option Rat := none
  transcribeProgressDuration : Option Rat := none
  transcribeElapsed : Option Rat := none
deriving DecidableEq, Repr, Inhabited

/-- Embeds `hasTranscription` (App.js line 371):
`file?.transcription && file.transcription.length > 0`. -/
def hasTranscription (file : FileRec) : Bool :=
  match file.transcription with
  | some l => decide (0 < l.length)
  | none => false

/-- Embeds `setUploadedFiles(prev => prev.map(f => f.id === fileId ? upd f : f))`,
the update pattern used throughout App.js. -/
def updateFile (files : List FileRec) (fileId : Nat) (upd : FileRec → FileRec) :
    List FileRec :=
  files.map (fun f => if f.id = fileId then upd f else f)

/-! ## Time formatting (C10)

`formatDuration` (App.js lines 541-551) and `formatTime` (lines 1294-1303).
`Math.floor` is `Int.floor`; the JS `%` operator is remainder with the sign
of the dividend, i.e. `a - b * trunc (a / b)`. -/

/-- JS truncation toward zero (the rounding used by the `%` operator). -/
def jsTrunc (q : Rat) : Int :=
  if q < 0 then -⌊-q⌋ else ⌊q⌋

/-- The JS `%` operator on numbers: `a - b * trunc (a / b)`. -/
def jsRem (a b : Rat) : Rat :=
  a - b * (jsTrunc (a / b) : Int)

/-- Embeds `str.padStart(2, '0')`. -/
def padStart2 (s : String) : String :=
  if 2 ≤ s.length then s else String.mk (List.replicate (2 - s.length) '0') ++ s

/-- Embeds `formatTime` (App.js lines 1294-1303).  Input is the raw JS number. -/
def formatTime (seconds : Rat) : String :=
  let hours : Int := ⌊seconds / 3600⌋
  let minutes : Int := ⌊(jsRem seconds 3600) / 60⌋
  let secs : Int := ⌊jsRem seconds 60⌋
  if 0 < hours then
    padStart2 (toString hours) ++ ":" ++ padStart2 (toString minutes) ++ ":" ++
      padStart2 (toString secs)
  else
    padStart2 (toString minutes) ++ ":" ++ padStart2 (toString secs)

/-- Embeds `formatDuration` (App.js lines 541-551).  `seconds || 0` maps `null` /
`undefined` to `0`, so the input is an `Option`.  After
`safeSeconds = Math.max(0, Math.floor(...))` every quantity is a nonnegative
integer, on which the further `Math.floor`s are the identity, so the
divisions and remainders are `Nat` operations. -/
def formatDuration (seconds : Option Rat) : String :=
  let safeSeconds : Nat := (max 0 ⌊seconds.getD 0⌋).toNat
  let hours : Nat := safeSeconds / 3600
  let minutes : Nat := (safeSeconds % 3600) / 60
  let secs : Nat := safeSeconds % 60
  if 0 < hours then
    padStart2 (toString hours) ++ ":" ++ padStart2 (toString minutes) ++ ":" ++
      padStart2 (toString secs)
  else
    padStart2 (toString minutes) ++ ":" ++ padStart2 (toString secs)

/-! ## Result-selection list operations (C8, C9)

`handleToggleResultSelection` (App.js lines 1702-1710) and
`handleMoveResultSelection` (lines 1712-1723).  `indexOf` returning `-1` is
modelled by `findIdx?` returning `none`; `splice(idx, 1)` is `eraseIdx idx`;
`splice(target, 0, item)` is `insertIdx target item`. -/

inductive MoveDir where
  | up
  | down
deriving DecidableEq, Repr

/-- Embeds `handleToggleResultSelection` (App.js lines 1702-1710). -/
def handleToggleResultSelection (l : List Nat) (id : Nat) (checked : Bool) :
    List Nat :=
  match l.findIdx? (fun x => x == id) with
  | none => if checked then l ++ [id] else l
  | some idx => if checked then l else l.eraseIdx idx

/-- Embeds `handleMoveResultSelection` (App.js lines 1712-1723).  The bounds check
`target < 0 || target >= next.length` happens before the two splices, against
the original length. -/
def handleMoveResultSelection (l : List Nat) (id : Nat) (direction : MoveDir) :
    List Nat :=
  match l.findIdx? (fun x => x == id) with
  | none => l
  | some idx =>
    let target : Int := match direction with
      | .up => (idx : Int) - 1
      | .down => (idx : Int) + 1
    if target < 0 ∨ (l.length : Int) ≤ target then l
    else (l.eraseIdx idx).insertIdx target.toNat id

/-! ## Upload (C7)

`handleUpload` (App.js lines 445-510).  The browser `File` handed to the
upload component carries `name`, `type` (MIME string) and `size`. -/

structure UploadFile where
  name : String
  mime : String
  size : Nat
deriving DecidableEq, Repr

/-- JS `String.prototype.startsWith`, on the character sequence. -/
def startsWith (s p : String) : Bool :=
  p.data.isPrefixOf s.data

/-- Backend response to `POST /api/files/upload`. -/
inductive UploadResp where
  | skipped
  | ok (newFile : FileRec)
  | httpError
deriving Repr

structure UploadOutcome where
  uploadedFiles : List FileRec
  result : Bool
  errorMsg : Option String
  warningMsg : Option String
  infoMsg : Option String
  requestSent : Bool
deriving Repr

/-- Embeds `handleUpload` (App.js lines 445-510).  The media-metadata callbacks
(`onloadedmetadata` / `onerror`) and the first-file preview selection are
asynchronous presentation effects outside every claim and are not modelled. -/
def handleUpload (resp : UploadResp) (uploadedFiles : List FileRec)
    (file : UploadFile) : UploadOutcome :=
  let isVideo := startsWith file.mime "video/"
  let isAudio := startsWith file.mime "audio/"
  if ¬ isVideo ∧ ¬ isAudio then
    ⟨uploadedFiles, false, some "请上传视频或音频文件", none, none, false⟩
  else
    let isExist := uploadedFiles.any
      (fun f => f.name == file.name && f.fileSize.getD 0 == file.size)
    if isExist then
      ⟨uploadedFiles, false, none, some "文件已存在", none, false⟩
    else
      match resp with
      | .httpError =>
        ⟨uploadedFiles, false, some "上传失败：上传失败", none, none, true⟩
      | .skipped =>
        ⟨uploadedFiles, false, none, none, some "文件已存在，已跳过上传", true⟩
      | .ok newFile =>
        ⟨uploadedFiles ++ [{ newFile with transcribeStartAt := none }],
          false, none, none, none, true⟩

/-! ## Transcription gate (C4) and streaming summaries (C3)

`checkTranscription` (App.js lines 949-955), `handleSummary` (958-1016),
`handleDetailedSummary` (1398-1455), `handleMindmap` (1019-1069). -/

/-- Embeds `checkTranscription` (App.js lines 949-955): `true` when the file has a
non-empty transcription; otherwise the warning `需等待视频/音频完成转录` is
shown and `false` returned. -/
def checkTranscription (file : FileRec) : Bool :=
  hasTranscription file

/-- The warning `checkTranscription` shows when it returns `false`. -/
def transcriptionGateWarning : String := "需等待视频/音频完成转录"

/-- A streaming backend response: either the ordered list of decoded text
chunks read off `response.body`, or a non-ok HTTP status. -/
inductive StreamResp where
  | ok (chunks : List String)
  | httpError
deriving Repr

structure SummaryOutcome where
  uploadedFiles : List FileRec
  loadingFiles : Finset Nat
  requestSent : Bool
  warning : Option String
  errorShown : Bool
  /-- The successive values stored in `fileRef.summary` by the read loop,
  one entry per received chunk. -/
  storedValues : List String

/-- The streaming read loop shared by `handleSummary` and
`handleDetailedSummary`: after each chunk the accumulated text is written
into the file record via `store` and pushed to the UI.  Returns the final
file list together with the successive stored values. -/
def streamLoop (fileId : Nat) (store : String → FileRec → FileRec) :
    List String → String → List FileRec → List FileRec × List String
  | [], _, files => (files, [])
  | chunk :: rest, acc, files =>
    let acc' := acc ++ chunk
    let files' := updateFile files fileId (store acc')
    let next := streamLoop fileId store rest acc' files'
    (next.1, acc' :: next.2)

/-- Embeds `handleSummary` (App.js lines 958-1016). -/
def handleSummary (resp : StreamResp) (uploadedFiles : List FileRec)
    (summaryLoadingFiles : Finset Nat) (fileId : Nat) : SummaryOutcome :=
  match uploadedFiles.find? (fun f => f.id == fileId) with
  | none => ⟨uploadedFiles, summaryLoadingFiles, false, none, false, []⟩
  | some file =>
    if ¬ checkTranscription file then
      ⟨uploadedFiles, summaryLoadingFiles, false, some transcriptionGateWarning,
        false, []⟩
    else if fileId ∈ summaryLoadingFiles then
      ⟨uploadedFiles, summaryLoadingFiles, false, some "该文件正在生成总结，请稍候",
        false, []⟩
    else
      let files0 := updateFile uploadedFiles fileId
        (fun f => { f with summary := some "" })
      match resp with
      | .httpError =>
        ⟨files0, (insert fileId summaryLoadingFiles).erase fileId, true, none,
          true, []⟩
      | .ok chunks =>
        let fin := streamLoop fileId (fun acc f => { f with summary := some acc })
          chunks "" files0
        ⟨fin.1, (insert fileId summaryLoadingFiles).erase fileId, true, none,
          false, fin.2⟩

/-- Embeds `handleDetailedSummary` (App.js lines 1398-1455); identical to
`handleSummary` except for the target field, the loading set and the error
strings. -/
def handleDetailedSummary (resp : StreamResp) (uploadedFiles : List FileRec)
    (detailedSummaryLoadingFiles : Finset Nat) (fileId : Nat) : SummaryOutcome :=
  match uploadedFiles.find? (fun f => f.id == fileId) with
  | none => ⟨uploadedFiles, detailedSummaryLoadingFiles, false, none, false, []⟩
  | some file =>
    if ¬ checkTranscription file then
      ⟨uploadedFiles, detailedSummaryLoadingFiles, false,
        some transcriptionGateWarning, false, []⟩
    else if fileId ∈ detailedSummaryLoadingFiles then
      ⟨uploadedFiles, detailedSummaryLoadingFiles, false,
        some "该文件正在生成详细总结，请稍候", false, []⟩
    else
      let files0 := updateFile uploadedFiles fileId
        (fun f => { f with detailedSummary := some "" })
      match resp with
      | .httpError =>
        ⟨files0, (insert fileId detailedSummaryLoadingFiles).erase fileId, true,
          none, true, []⟩
      | .ok chunks =>
        let fin := streamLoop fileId
          (fun acc f => { f with detailedSummary := some acc }) chunks "" files0
        ⟨fin.1, (insert fileId detailedSummaryLoadingFiles).erase fileId, true,
          none, false, fin.2⟩

/-- Backend response to `POST /api/files/{id}/mindmap` (a single JSON body,
not a stream). -/
inductive MindmapResp where
  | ok (mindmap : String)
  | httpError
deriving Repr

/-- Embeds `handleMindmap` (App.js lines 1019-1069). -/
def handleMindmap (resp : MindmapResp) (uploadedFiles : List FileRec)
    (mindmapLoadingFiles : Finset Nat) (fileId : Nat) : SummaryOutcome :=
  match uploadedFiles.find? (fun f => f.id == fileId) with
  | none => ⟨uploadedFiles, mindmapLoadingFiles, false, none, false, []⟩
  | some file =>
    if ¬ checkTranscription file then
      ⟨uploadedFiles, mindmapLoadingFiles, false, some transcriptionGateWarning,
        false, []⟩
    else if fileId ∈ mindmapLoadingFiles then
      ⟨uploadedFiles, mindmapLoadingFiles, false,
        some "该文件正在生成思维导图，请稍候", false, []⟩
    else
      let files0 := updateFile uploadedFiles fileId
        (fun f => { f with mindmapData := none })
      match resp with
      | .httpError =>
        ⟨files0, (insert fileId mindmapLoadingFiles).erase fileId, true, none,
          true, []⟩
      | .ok mm =>
        ⟨updateFile files0 fileId (fun f => { f with mindmapData := some mm }),
          (insert fileId mindmapLoadingFiles).erase fileId, true, none, false, []⟩

/-! ## Chat (C2, C4, C5)

`persistChatHistory` (App.js lines 1135-1144) and `handleSendMessage`
(lines 1173-1283).  A chat target is either an uploaded file's id (the
per-file chat, called with `contextText` undefined) or the merged key
`merged:...` (called with the merged transcript as `contextText`). -/

structure Msg where
  role : String
  content : String
deriving DecidableEq, Repr

inductive ChatKey where
  | file (id : Nat)
  | merged (key : String)
deriving DecidableEq, Repr

/-- JS falsiness of a chat key (`!contextKey`): the number `0` and the empty
string are falsy. -/
def ChatKey.falsy : ChatKey → Bool
  | .file id => id == 0
  | .merged key => key == ""

/-- The body of the `POST http://localhost:8000/api/chat-history` request. -/
structure PersistRequest where
  url : String
  contextKey : ChatKey
  messages : List Msg
deriving DecidableEq, Repr

/-- Embeds `persistChatHistory` (App.js lines 1135-1144): sends the conversation to
the backend chat-history store (the same store `loadChatHistory` reads back
on the next session), unless the key is falsy.  Returns the issued request. -/
def persistChatHistory (contextKey : ChatKey) (messages : List Msg) :
    Option PersistRequest :=
  if contextKey.falsy then none
  else some ⟨"http://localhost:8000/api/chat-history", contextKey, messages⟩

/-- Backend response to `POST /api/chat`: the streamed chunks, a non-ok
status, or an abort raised while reading (`AbortError`). -/
inductive ChatResp where
  | ok (chunks : List String)
  | httpError
deriving Repr

/-- The render-time state read by `handleSendMessage`. -/
structure ChatState where
  uploadedFiles : List FileRec
  generatingFiles : Finset ChatKey
  messagesByFile : ChatKey → List Msg
  inputMessages : ChatKey → String

/-- The body of the `POST http://localhost:8000/api/chat` request. -/
structure ChatRequest where
  messages : List Msg
  context : String
deriving DecidableEq, Repr

structure SendOutcome where
  generatingFiles : Finset ChatKey
  messagesByFile : ChatKey → List Msg
  inputMessages : ChatKey → String
  /-- True when `abortControllers.current[targetId]?.abort()` was invoked. -/
  abortedPrevious : Bool
  /-- The `POST /api/chat` request issued, if any. -/
  chatRequest : Option ChatRequest
  /-- The `persistChatHistory` request issued, if any. -/
  persisted : Option PersistRequest
  warning : Option String

/-- The marker text appended by the stop branch (App.js line 1194 appends
`"\n\n" + "*[已停止生成]*"` to the last assistant message). -/
def stopMarker : String := "*[已停止生成]*"

/-- The stop branch of `handleSendMessage` (App.js lines 1177-1202): abort
the in-flight request, drop the target from `generatingFiles`, and when the
conversation ends with an assistant message, append the stop marker to it. -/
def stopGeneration (st : ChatState) (targetId : ChatKey) : SendOutcome :=
  let currentMessages := st.messagesByFile targetId
  let updatedMessages :=
    match currentMessages.getLast? with
    | some lastMessage =>
      if lastMessage.role = "assistant" then
        currentMessages.dropLast ++
          [{ lastMessage with content := lastMessage.content ++ "\n\n" ++ stopMarker }]
      else currentMessages
    | none => currentMessages
  ⟨st.generatingFiles.erase targetId,
    fun k => if k = targetId then updatedMessages else st.messagesByFile k,
    st.inputMessages, true, none, persistChatHistory targetId updatedMessages,
    none⟩

/-- Embeds `handleSendMessage` (App.js lines 1173-1283).  `targetId` together with
`contextText` reflect the two call forms; the stop branch (target currently
generating) precedes the transcription gate, exactly as in the source. -/
def handleSendMessage (resp : ChatResp) (st : ChatState) (targetId : ChatKey)
    (contextText : Option String) : SendOutcome :=
  let file? : Option FileRec :=
    if contextText.isSome then none
    else match targetId with
      | .file fid => st.uploadedFiles.find? (fun f => f.id == fid)
      | .merged _ => none
  if contextText.isNone ∧ file?.isNone then
    ⟨st.generatingFiles, st.messagesByFile, st.inputMessages, false, none, none,
      none⟩
  else if targetId ∈ st.generatingFiles then
    stopGeneration st targetId
  else if contextText.isNone ∧ ¬ (checkTranscription (file?.getD default)) then
    ⟨st.generatingFiles, st.messagesByFile, st.inputMessages, false, none, none,
      some transcriptionGateWarning⟩
  else
    let inputMessage := st.inputMessages targetId
    if inputMessage.trim = "" then
      ⟨st.generatingFiles, st.messagesByFile, st.inputMessages, false, none,
        none, some "请输入消息内容"⟩
    else
      let newMessage : Msg := ⟨"user", inputMessage⟩
      let currentMessages := st.messagesByFile targetId ++ [newMessage]
      let ctx := match contextText with
        | some t => t
        | none => String.intercalate "\n"
            (((file?.getD default).transcription.getD []).map (fun item => item.text))
      let req : ChatRequest := ⟨currentMessages, ctx⟩
      match resp with
      | .httpError =>
        ⟨(insert targetId st.generatingFiles).erase targetId,
          fun k => if k = targetId then currentMessages else st.messagesByFile k,
          fun k => if k = targetId then "" else st.inputMessages k,
          false, some req, none, none⟩
      | .ok chunks =>
        let aiResponse := String.join chunks
        let finalMessages := currentMessages ++ [⟨"assistant", aiResponse⟩]
        ⟨(insert targetId st.generatingFiles).erase targetId,
          fun k => if k = targetId then finalMessages else st.messagesByFile k,
          fun k => if k = targetId then "" else st.inputMessages k,
          false, some req, persistChatHistory targetId finalMessages, none⟩

/-! ## Progress polling (C6)

The `transcribingKey` effect (App.js lines 294-342): whenever at least one
file is transcribing, `fetchProgress` runs once immediately and then on every
1000 ms `setInterval` tick, polling `/api/files/{id}/transcribe-progress` for
exactly the transcribing ids. -/

/-- App.js line 294. -/
def transcribingIds (uploadedFiles : List FileRec) : List Nat :=
  (uploadedFiles.filter (fun f => f.status == FStatus.transcribing)).map
    (fun f => f.id)

/-- App.js line 295: `transcribingIds.join('|')`. -/
def transcribingKey (uploadedFiles : List FileRec) : String :=
  String.intercalate "|" ((transcribingIds uploadedFiles).map toString)

/-- The decoded JSON of a progress response; a field is `none` when
`typeof data.x === 'number'` fails. -/
structure ProgressData where
  progress : Option Rat
  current : Option Rat
  duration : Option Rat
deriving DecidableEq, Repr

/-- The per-file update of a successful progress response (App.js
lines 320-325). -/
def applyProgress (d : ProgressData) (f : FileRec) : FileRec :=
  { f with
    transcribeProgress := d.progress
    transcribeProgressCurrent := d.current
    transcribeProgressDuration := d.duration }

/-- The effect of one per-id request of `fetchProgress`: a failed fetch or a
non-ok response (`resp fileId = none`) changes nothing; a successful response
writes the decoded fields into the matching file. -/
def progressStep (resp : Nat → Option ProgressData) (files : List FileRec)
    (fileId : Nat) : List FileRec :=
  match resp fileId with
  | none => files
  | some d => updateFile files fileId (applyProgress d)

/-- One invocation of `fetchProgress` (App.js lines 302-335) over the ids the
effect captured: every id is fetched; each successful (`response.ok`, JSON
decoded) response updates that file's three progress fields; a failed fetch
updates nothing.  Returns the new file list and the ids requested.
The ids are recovered in the source from `transcribingKey.split('|')`, which
round-trips `join('|')` of the decimal ids. -/
def fetchProgress (resp : Nat → Option ProgressData) (ids : List Nat)
    (uploadedFiles : List FileRec) : List FileRec × List Nat :=
  (ids.foldl (progressStep resp) uploadedFiles, ids)

/-- The polling effect (App.js lines 297-342): `none` when no file is
transcribing (`if (!transcribingKey) return`); otherwise the ids polled on
the immediate call and on every tick, paired with the `setInterval` period in
milliseconds (`setInterval(fetchProgress, 1000)`). -/
def progressPollEffect (uploadedFiles : List FileRec) :
    Option (List Nat × Nat) :=
  if transcribingKey uploadedFiles = "" then none
  else some (transcribingIds uploadedFiles, 1000)

/-! ## Batch transcription (C1)

`handleBatchTranscribe` (App.js lines 744-946), the `else` path that runs the
sequential queue.  `abortTranscribing` is the value captured by the handler's
closure and is constant for the whole loop.  `now` stands for `Date.now()`
(its exact value affects only the bookkeeping fields, not the claim). -/

/-- Backend response to `POST /api/files/{id}/transcribe`. -/
inductive TResp where
  | ok (transcription : List TransItem)
  | fail
  | abort499
deriving Repr

/-- The observable actions of the batch loop, in order. -/
inductive BatchEvent where
  | setTranscribing (fid : Nat)
  | request (fid : Nat)
  | setDone (fid : Nat) (t : List TransItem)
  | setError (fid : Nat)
  | setInterrupted (fid : Nat)
deriving DecidableEq, Repr

/-- App.js lines 841-851: mark the file as transcribing before its request. -/
def markTranscribing (now : Rat) (f : FileRec) : FileRec :=
  { f with
    status := .transcribing
    transcribeStartAt := some now
    transcribeProgress := some 0
    transcribeProgressCurrent := some 0
    transcribeProgressDuration := none
    transcribeElapsed := none }

/-- The elapsed-time bookkeeping shared by the terminal updates:
`f.transcribeStartAt ? Math.max((Date.now() - f.transcribeStartAt)/1000, 0)
: (f.transcribeElapsed ?? null)`. -/
def elapsedOf (now : Rat) (f : FileRec) : Option Rat :=
  match f.transcribeStartAt with
  | some t0 => some (max ((now - t0) / 1000) 0)
  | none => f.transcribeElapsed

/-- App.js lines 892-906: the successful-response update. -/
def markDone (now : Rat) (t : List TransItem) (f : FileRec) : FileRec :=
  { f with
    status := .done
    transcription := some t
    transcribeStartAt := none
    transcribeProgress := some 100
    transcribeProgressCurrent :=
      (f.transcribeProgressDuration.or f.duration).or f.transcribeProgressCurrent
    transcribeProgressDuration := f.transcribeProgressDuration.or f.duration
    transcribeElapsed := elapsedOf now f }

/-- App.js lines 923-933: the failed-response update. -/
def markError (now : Rat) (f : FileRec) : FileRec :=
  { f with
    status := .error
    transcribeStartAt := none
    transcribeProgress := none
    transcribeProgressCurrent := none
    transcribeProgressDuration := none
    transcribeElapsed := elapsedOf now f }

/-- App.js lines 862-874 (and 806-818): the interrupted update. -/
def markInterrupted (now : Rat) (f : FileRec) : FileRec :=
  { f with
    status := .interrupted
    transcribeStartAt := none
    transcribeProgress := none
    transcribeProgressCurrent := none
    transcribeProgressDuration := none
    transcribeElapsed := elapsedOf now f }

/-- App.js lines 806-818: on an abort request, every file currently
transcribing is marked interrupted. -/
def interruptTranscribing (now : Rat) (files : List FileRec) : List FileRec :=
  files.map (fun f => if f.status = .transcribing then markInterrupted now f else f)

/-- The `for (const fileId of selectedFiles)` loop of `handleBatchTranscribe`
(App.js lines 802-937).  `orig` is the render-time `uploadedFiles` the loop's
`find` reads (the React state variable captured by the closure), `files` the
evolving list behind `setUploadedFiles`.  Returns the final list and the
event trace. -/
def batchLoop (resp : Nat → TResp) (now : Rat) (abortTranscribing : Bool)
    (orig : List FileRec) :
    List Nat → List FileRec → List FileRec × List BatchEvent
  | [], files => (files, [])
  | fileId :: rest, files =>
    if abortTranscribing then (interruptTranscribing now files, [])
    else
      match orig.find? (fun f => f.id == fileId) with
      | none => batchLoop resp now abortTranscribing orig rest files
      | some file =>
        if file.status = .done then
          batchLoop resp now abortTranscribing orig rest files
        else
          let files1 := updateFile files fileId (markTranscribing now)
          match resp fileId with
          | .abort499 =>
            (updateFile files1 fileId (markInterrupted now),
              [.setTranscribing fileId, .request fileId, .setInterrupted fileId])
          | .ok t =>
            let files2 := updateFile files1 fileId (markDone now t)
            let next := batchLoop resp now abortTranscribing orig rest files2
            (next.1,
              .setTranscribing fileId :: .request fileId :: .setDone fileId t ::
                next.2)
          | .fail =>
            let files2 := updateFile files1 fileId (markError now)
            let next := batchLoop resp now abortTranscribing orig rest files2
            (next.1,
              .setTranscribing fileId :: .request fileId :: .setError fileId ::
                next.2)

/-- Embeds `handleBatchTranscribe` (App.js lines 744-946), transcription path: the
guard branches (`isTranscribing` stop request, empty selection) issue no
transcribe request; otherwise the loop runs over the selection. -/
def handleBatchTranscribe (resp : Nat → TResp) (now : Rat)
    (isTranscribing abortTranscribing : Bool) (selectedFiles : List Nat)
    (uploadedFiles : List FileRec) : List FileRec × List BatchEvent :=
  if isTranscribing then (uploadedFiles, [])
  else if selectedFiles.length = 0 then (uploadedFiles, [])
  else batchLoop resp now abortTranscribing uploadedFiles selectedFiles
    uploadedFiles

/-- The transcribe requests contained in a batch event trace. -/
def requestedIds (evs : List BatchEvent) : List Nat :=
  evs.filterMap (fun e => match e with
    | .request fid => some fid
    | _ => none)

/-! Claim-side descriptions for C1, written from the claim's words. -/

/-- The selected ids that are processed (present in the render-time list and
not already done) — the claim's "a file whose status is 'done' is skipped". -/
def eligibleIds (orig : List FileRec) (selectedFiles : List Nat) : List Nat :=
  selectedFiles.filter (fun fileId =>
    match orig.find? (fun f => f.id == fileId) with
    | some f => decide (f.status ≠ .done)
    | none => false)

/-- Truncation of the queue at the first id whose response is HTTP 499 — the
claim's "every remaining file in the queue is abandoned". -/
def truncAt499 (resp : Nat → TResp) : List Nat → List Nat
  | [] => []
  | fid :: rest =>
    match resp fid with
    | .abort499 => [fid]
    | _ => fid :: truncAt499 resp rest

/-- The claim's per-file event block: status set to transcribing, then the
request, then the outcome dictated by the response. -/
def claimBlock (resp : Nat → TResp) (fid : Nat) : List BatchEvent :=
  [.setTranscribing fid, .request fid] ++
    match resp fid with
    | .ok t => [.setDone fid t]
    | .fail => [.setError fid]
    | .abort499 => [.setInterrupted fid]

/-! ## Merged summary (C5)

`handleMergedSummary` (App.js lines 1457-1506): streams `/api/summary` into
`mergedSummary` and, when both the selection key and the result are
non-empty, POSTs the result to the backend `merged-summary` store (the same
store the `mergedSelectionKey` effect at lines 397-443 reads back). -/

structure MergedPersistRequest where
  url : String
  selectionKey : String
  payload : String
deriving DecidableEq, Repr

structure MergedSummaryOutcome where
  mergedSummary : String
  /-- The body of the `POST /api/summary` request, when one is issued. -/
  requestBody : Option String
  warning : Option String
  errorShown : Bool
  persisted : Option MergedPersistRequest
deriving DecidableEq, Repr

/-- Embeds `handleMergedSummary` (App.js lines 1457-1506). -/
def handleMergedSummary (resp : StreamResp) (mergedTranscribedFiles : List FileRec)
    (mergedSummaryLoading : Bool) (mergedText : String)
    (mergedSelectionKey : String) : MergedSummaryOutcome :=
  if mergedTranscribedFiles.length = 0 then
    ⟨"", none, some "请选择需要合并的转录结果文件", false, none⟩
  else if mergedSummaryLoading then
    ⟨"", none, some "合并总结正在生成，请稍候", false, none⟩
  else
    match resp with
    | .httpError => ⟨"", some mergedText, none, true, none⟩
    | .ok chunks =>
      let summaryText := String.join chunks
      ⟨summaryText, some mergedText, none, false,
        if mergedSelectionKey ≠ "" ∧ summaryText ≠ "" then
          some ⟨"http://localhost:8000/api/merged-summary", mergedSelectionKey,
            summaryText⟩
        else none⟩

/-! ## Helper lemmas on list surgery (for C8, C9) -/

theorem eraseIdx_of_findIdx? {l : List Nat} {id idx : Nat}
    (h : l.findIdx? (fun x => x == id) = some idx) : l.eraseIdx idx = l.erase id := by
  induction l generalizing idx with
  | nil => simp at h
  | cons a t ih =>
    by_cases ha : a = id
    · simp only [List.findIdx?_cons, ha, beq_self_eq_true, if_true] at h
      cases h
      simp [List.eraseIdx, List.erase_cons, ha]
    · have hba : (a == id) = false := by simp [ha]
      simp only [List.findIdx?_cons, hba, Bool.false_eq_true, if_false,
        Nat.zero_add, List.findIdx?_succ, Option.map_eq_some'] at h
      obtain ⟨j, hj, hji⟩ := h
      cases idx with
      | zero => omega
      | succ i =>
        have : j = i := by omega
        subst this
        simp [List.eraseIdx, List.erase_cons, hba, ih hj]

theorem perm_insertIdx (a : α) : ∀ (n : Nat) (l : List α), n ≤ l.length →
    (l.insertIdx n a).Perm (a :: l)
  | 0, l, _ => by simp
  | n + 1, [], h => by simp at h
  | n + 1, b :: t, h => by
    have ih := perm_insertIdx a n t (by simpa using h)
    have step : (b :: t.insertIdx n a).Perm (b :: a :: t) := ih.cons b
    exact step.trans (List.Perm.swap a b t)

theorem perm_get_cons_eraseIdx :
    ∀ (l : List α) (idx : Nat) (h : idx < l.length),
      l.Perm (l.get ⟨idx, h⟩ :: l.eraseIdx idx)
  | b :: t, 0, _ => by simp
  | b :: t, idx + 1, h => by
    have ht : idx < t.length := by simpa using h
    have ih := perm_get_cons_eraseIdx t idx ht
    have step : (b :: t).Perm (b :: t.get ⟨idx, ht⟩ :: t.eraseIdx idx) := ih.cons b
    exact step.trans (List.Perm.swap (t.get ⟨idx, ht⟩) b (t.eraseIdx idx))

theorem insertIdx_get_eraseIdx :
    ∀ (l : List α) (idx : Nat) (h : idx < l.length),
      (l.eraseIdx idx).insertIdx idx (l.get ⟨idx, h⟩) = l
  | b :: t, 0, _ => rfl
  | b :: t, idx + 1, h => by
    have ih := insertIdx_get_eraseIdx t idx (by simpa using h)
    simpa [List.eraseIdx] using ih

theorem findIdx?_none_of_not_mem {l : List Nat} {id : Nat} (h : id ∉ l) :
    l.findIdx? (fun x => x == id) = none := by
  rw [List.findIdx?_eq_none_iff]
  intro x hx
  simp only [beq_eq_false_iff_ne, ne_eq]
  rintro rfl
  exact h hx

theorem mem_of_findIdx?_some {l : List Nat} {id idx : Nat}
    (h : l.findIdx? (fun x => x == id) = some idx) : id ∈ l := by
  obtain ⟨hlt, hp, -⟩ := List.findIdx?_eq_some_iff_getElem.mp h
  have : l.get ⟨idx, hlt⟩ = id := by simpa using hp
  exact this ▸ List.get_mem l idx hlt

/-- Claim C9: toggling the result selection preserves the no-duplicates
invariant — with `checked = true` the id is appended at the end exactly when
absent, with `checked = false` its single occurrence is removed exactly when
present, the two remaining cases return the list unchanged, and the result is
always duplicate-free. -/
theorem claim_C9 (l : List Nat) (id : Nat) (hnd : l.Nodup) :
    (id ∉ l → handleToggleResultSelection l id true = l ++ [id])
    ∧ (id ∈ l → handleToggleResultSelection l id true = l)
    ∧ (id ∈ l → handleToggleResultSelection l id false = l.erase id)
    ∧ (id ∉ l → handleToggleResultSelection l id false = l)
    ∧ ∀ checked, (handleToggleResultSelection l id checked).Nodup := by
  by_cases hid : id ∈ l
  · obtain ⟨idx, hfind⟩ : ∃ idx, l.findIdx? (fun x => x == id) = some idx := by
      cases hcase : l.findIdx? (fun x => x == id) with
      | none => exact absurd (List.findIdx?_eq_none_iff.mp hcase id hid) (by simp)
      | some idx => exact ⟨idx, rfl⟩
    refine ⟨fun h => absurd hid h, fun _ => ?_, fun _ => ?_, fun h => absurd hid h,
      fun checked => ?_⟩
    · simp [handleToggleResultSelection, hfind]
    · simp [handleToggleResultSelection, hfind, eraseIdx_of_findIdx? hfind]
    · cases checked with
      | true => simpa [handleToggleResultSelection, hfind] using hnd
      | false =>
        simp only [handleToggleResultSelection, hfind]
        exact ((List.eraseIdx_sublist l idx).nodup hnd)
  · have hfind := findIdx?_none_of_not_mem hid
    refine ⟨fun _ => ?_, fun h => absurd h hid, fun h => absurd h hid, fun _ => ?_,
      fun checked => ?_⟩
    · simp [handleToggleResultSelection, hfind]
    · simp [handleToggleResultSelection, hfind]
    · cases checked with
      | true =>
        simp only [handleToggleResultSelection, hfind, if_true]
        refine hnd.append (List.nodup_singleton id) ?_
        intro a ha hmem
        simp only [List.mem_singleton] at hmem
        subst hmem
        exact hid ha
      | false => simpa [handleToggleResultSelection, hfind] using hnd

theorem claim_C9_witness :
    [3, 5].Nodup ∧ (4 ∉ [3, 5] ∧ handleToggleResultSelection [3, 5] 4 true = [3, 5] ++ [4]) :=
  ⟨by decide, by decide, (claim_C9 [3, 5] 4 (by decide)).1 (by decide)⟩

theorem lt_length_of_findIdx?_some {l : List Nat} {id idx : Nat}
    (h : l.findIdx? (fun x => x == id) = some idx) : idx < l.length :=
  (List.findIdx?_eq_some_iff_getElem.mp h).1

theorem get_of_findIdx?_some {l : List Nat} {id idx : Nat}
    (h : l.findIdx? (fun x => x == id) = some idx)
    (hlt : idx < l.length) : l.get ⟨idx, hlt⟩ = id := by
  obtain ⟨hlt2, hp, -⟩ := List.findIdx?_eq_some_iff_getElem.mp h
  simpa using hp

theorem get_ne_of_findIdx?_some {l : List Nat} {id idx j : Nat}
    (h : l.findIdx? (fun x => x == id) = some idx)
    (hj : j < idx) (hjl : j < l.length) : l.get ⟨j, hjl⟩ ≠ id := by
  obtain ⟨hlt2, -, hbefore⟩ := List.findIdx?_eq_some_iff_getElem.mp h
  have := hbefore j hj
  simpa using this

theorem handleMoveResultSelection_up_eq {l : List Nat} {id idx : Nat}
    (hfind : l.findIdx? (fun x => x == id) = some idx) (hpos : 0 < idx) :
    handleMoveResultSelection l id .up = (l.eraseIdx idx).insertIdx (idx - 1) id := by
  have hlt := lt_length_of_findIdx?_some hfind
  have ht : ((idx : Int) - 1).toNat = idx - 1 := by omega
  simp only [handleMoveResultSelection, hfind]
  rw [if_neg (by omega)]
  rw [ht]

theorem handleMoveResultSelection_down_eq {l : List Nat} {id idx : Nat}
    (hfind : l.findIdx? (fun x => x == id) = some idx) (hlt : idx + 1 < l.length) :
    handleMoveResultSelection l id .down = (l.eraseIdx idx).insertIdx (idx + 1) id := by
  have ht : ((idx : Int) + 1).toNat = idx + 1 := by omega
  simp only [handleMoveResultSelection, hfind]
  rw [if_neg (by omega)]
  rw [ht]

theorem findIdx?_insertIdx_eraseIdx {l : List Nat} {id idx : Nat}
    (hfind : l.findIdx? (fun x => x == id) = some idx) (hpos : 0 < idx) :
    ((l.eraseIdx idx).insertIdx (idx - 1) id).findIdx? (fun x => x == id) =
      some (idx - 1) := by
  have hlt := lt_length_of_findIdx?_some hfind
  have hlenE : (l.eraseIdx idx).length = l.length - 1 :=
    List.length_eraseIdx_of_lt hlt
  have hle : idx - 1 ≤ (l.eraseIdx idx).length := by omega
  have hmem1 : idx - 1 < ((l.eraseIdx idx).insertIdx (idx - 1) id).length := by
    rw [List.length_insertIdx _ _ hle]
    omega
  rw [List.findIdx?_eq_some_iff_getElem]
  refine ⟨hmem1, ?_, ?_⟩
  · rw [List.getElem_insertIdx_self (l.eraseIdx idx) id (idx - 1) hle]
    simp
  · intro j hj
    have hjE : j < (l.eraseIdx idx).length := by omega
    have hjl : j < l.length := by omega
    rw [List.getElem_insertIdx_of_lt (l.eraseIdx idx) id (idx - 1) j hj hjE,
      List.getElem_eraseIdx_of_lt l idx j hjE (by omega)]
    have hne : l.get ⟨j, hjl⟩ ≠ id :=
      get_ne_of_findIdx?_some hfind (show j < idx by omega) hjl
    simp only [List.get_eq_getElem] at hne
    simpa using hne

/-- Claim C8: result-selection moves are permutations with a round-trip —
moving an id up then down restores a duplicate-free list whenever the id sits
at a positive index, every move preserves the multiset of elements, and a
move whose id is absent or whose target index falls outside the list leaves
the list unchanged. -/
theorem claim_C8 :
    (∀ (l : List Nat) (id idx : Nat), l.Nodup →
        l.findIdx? (fun x => x == id) = some idx → 0 < idx →
        handleMoveResultSelection (handleMoveResultSelection l id .up) id .down = l)
    ∧ (∀ (l : List Nat) (id : Nat) (direction : MoveDir),
        (handleMoveResultSelection l id direction).Perm l)
    ∧ (∀ (l : List Nat) (id : Nat) (direction : MoveDir), id ∉ l →
        handleMoveResultSelection l id direction = l)
    ∧ (∀ (l : List Nat) (id idx : Nat), l.findIdx? (fun x => x == id) = some idx →
        (idx = 0 → handleMoveResultSelection l id .up = l)
        ∧ (idx + 1 = l.length → handleMoveResultSelection l id .down = l)) := by
  refine ⟨?_, ?_, ?_, ?_⟩
  · -- round trip
    intro l id idx _ hfind hpos
    have hlt := lt_length_of_findIdx?_some hfind
    have hget := get_of_findIdx?_some hfind hlt
    have hlenE : (l.eraseIdx idx).length = l.length - 1 :=
      List.length_eraseIdx_of_lt hlt
    have hle : idx - 1 ≤ (l.eraseIdx idx).length := by omega
    have hup : handleMoveResultSelection l id .up =
        (l.eraseIdx idx).insertIdx (idx - 1) id :=
      handleMoveResultSelection_up_eq hfind hpos
    have hfind1 := findIdx?_insertIdx_eraseIdx hfind hpos
    have hlen1 : ((l.eraseIdx idx).insertIdx (idx - 1) id).length = l.length := by
      rw [List.length_insertIdx _ _ hle]
      omega
    have hdown : handleMoveResultSelection
        ((l.eraseIdx idx).insertIdx (idx - 1) id) id .down =
        ((((l.eraseIdx idx).insertIdx (idx - 1) id).eraseIdx (idx - 1)).insertIdx
          ((idx - 1) + 1) id) :=
      handleMoveResultSelection_down_eq hfind1 (by omega)
    have hcancel : ((l.eraseIdx idx).insertIdx (idx - 1) id).eraseIdx (idx - 1) =
        l.eraseIdx idx :=
      List.eraseIdx_insertIdx (idx - 1) (l.eraseIdx idx)
    rw [hup, hdown, hcancel, show (idx - 1) + 1 = idx by omega, ← hget]
    exact insertIdx_get_eraseIdx l idx hlt
  · -- permutation
    intro l id direction
    cases hfind : l.findIdx? (fun x => x == id) with
    | none => simp [handleMoveResultSelection, hfind]
    | some idx =>
      have hlt := lt_length_of_findIdx?_some hfind
      have hget := get_of_findIdx?_some hfind hlt
      simp only [handleMoveResultSelection, hfind]
      set target : Int := (match direction with
        | MoveDir.up => (idx : Int) - 1
        | MoveDir.down => (idx : Int) + 1) with htarget
      by_cases hcond : target < 0 ∨ (l.length : Int) ≤ target
      · rw [if_pos hcond]
      · rw [if_neg hcond]
        push_neg at hcond
        have hbound : target.toNat ≤ (l.eraseIdx idx).length := by
          have := List.length_eraseIdx_of_lt hlt
          cases direction <;> simp only [htarget] at hcond ⊢ <;> omega
        have h1 := perm_insertIdx id target.toNat (l.eraseIdx idx) hbound
        have h2 := perm_get_cons_eraseIdx l idx hlt
        rw [hget] at h2
        exact h1.trans h2.symm
  · -- absent id
    intro l id direction hid
    simp [handleMoveResultSelection, findIdx?_none_of_not_mem hid]
  · -- out-of-range targets
    intro l id idx hfind
    constructor
    · rintro rfl
      simp [handleMoveResultSelection, hfind]
    · intro hlast
      simp only [handleMoveResultSelection, hfind]
      rw [if_pos]
      right
      omega

theorem claim_C8_witness :
    ([7, 9, 11].Nodup
      ∧ [7, 9, 11].findIdx? (fun x => x == 9) = some 1 ∧ 0 < 1
      ∧ handleMoveResultSelection (handleMoveResultSelection [7, 9, 11] 9 .up) 9 .down
          = [7, 9, 11])
    ∧ (9 ∉ [7, 11]
      ∧ handleMoveResultSelection [7, 11] 9 .up = [7, 11]) :=
  ⟨⟨by decide, by decide, by decide,
      claim_C8.1 [7, 9, 11] 9 1 (by decide) (by decide) (by decide)⟩,
    by decide, claim_C8.2.2.1 [7, 11] 9 .up (by decide)⟩

/-- Claim C7: upload accepts only audio/video and rejects duplicates — a file
whose MIME type starts with neither `video/` nor `audio/` gets the error
`请上传视频或音频文件` and `false` with no request issued; a media file whose
name and size match an already uploaded file (missing `fileSize` treated
as 0) gets the warning `文件已存在` and no request; in both cases the
uploaded-file list is unchanged. -/
theorem claim_C7 (resp : UploadResp) (uploadedFiles : List FileRec)
    (file : UploadFile) :
    (¬ startsWith file.mime "video/" → ¬ startsWith file.mime "audio/" →
      handleUpload resp uploadedFiles file =
        ⟨uploadedFiles, false, some "请上传视频或音频文件", none, none, false⟩)
    ∧ ((startsWith file.mime "video/" ∨ startsWith file.mime "audio/") →
      (∃ f ∈ uploadedFiles, f.name = file.name ∧ f.fileSize.getD 0 = file.size) →
      handleUpload resp uploadedFiles file =
        ⟨uploadedFiles, false, none, some "文件已存在", none, false⟩) := by
  constructor
  · intro h1 h2
    simp only [handleUpload]
    rw [if_pos ⟨h1, h2⟩]
  · intro hmedia ⟨f, hf, hname, hsize⟩
    have hexist : uploadedFiles.any
        (fun f => f.name == file.name && f.fileSize.getD 0 == file.size) = true := by
      rw [List.any_eq_true]
      exact ⟨f, hf, by simp [hname, hsize]⟩
    simp only [handleUpload]
    rw [if_neg (fun h => hmedia.elim (fun hv => h.1 hv) (fun ha => h.2 ha)),
      if_pos hexist]

theorem claim_C7_witness :
    (¬ (startsWith "text/plain" "video/" : Bool)
      ∧ ¬ (startsWith "text/plain" "audio/" : Bool)
      ∧ handleUpload .httpError [] ⟨"a.txt", "text/plain", 3⟩ =
          ⟨[], false, some "请上传视频或音频文件", none, none, false⟩)
    ∧ ((startsWith "video/mp4" "video/" : Bool)
      ∧ handleUpload .httpError [{ id := 1, name := "a.mp4", fileSize := some 3 }]
          ⟨"a.mp4", "video/mp4", 3⟩ =
          ⟨[{ id := 1, name := "a.mp4", fileSize := some 3 }], false, none,
            some "文件已存在", none, false⟩) :=
  ⟨⟨by decide, by decide,
      (claim_C7 .httpError [] ⟨"a.txt", "text/plain", 3⟩).1 (by decide) (by decide)⟩,
    by decide,
    (claim_C7 .httpError [{ id := 1, name := "a.mp4", fileSize := some 3 }]
        ⟨"a.mp4", "video/mp4", 3⟩).2 (by decide)
      ⟨{ id := 1, name := "a.mp4", fileSize := some 3 }, by decide, by decide, by decide⟩⟩

/-! ## Floor arithmetic helpers for C10 -/

theorem intFloor_eq_natFloor {s : Rat} (h : 0 ≤ s) : ⌊s⌋ = (⌊s⌋₊ : ℤ) := by
  rw [← Int.floor_toNat s, Int.toNat_of_nonneg (Int.floor_nonneg.2 h)]

theorem jsTrunc_of_nonneg {q : Rat} (h : 0 ≤ q) : jsTrunc q = ⌊q⌋ := by
  unfold jsTrunc
  rw [if_neg (not_lt.2 h)]

theorem floor_div_3600 {s : Rat} (h : 0 ≤ s) :
    ⌊s / 3600⌋ = ((⌊s⌋₊ / 3600 : ℕ) : ℤ) := by
  have hd : (0 : ℚ) ≤ s / 3600 := by positivity
  have := Nat.floor_div_nat s 3600
  rw [intFloor_eq_natFloor hd]
  exact_mod_cast congrArg (Nat.cast : ℕ → ℤ) (by exact_mod_cast this)

theorem floor_div_60 {s : Rat} (h : 0 ≤ s) :
    ⌊s / 60⌋ = ((⌊s⌋₊ / 60 : ℕ) : ℤ) := by
  have hd : (0 : ℚ) ≤ s / 60 := by positivity
  have := Nat.floor_div_nat s 60
  rw [intFloor_eq_natFloor hd]
  exact_mod_cast congrArg (Nat.cast : ℕ → ℤ) (by exact_mod_cast this)

theorem floor_minutes {s : Rat} (h : 0 ≤ s) :
    ⌊jsRem s 3600 / 60⌋ = ((⌊s⌋₊ % 3600 / 60 : ℕ) : ℤ) := by
  have h36 : (0 : ℚ) ≤ s / 3600 := by positivity
  have e1 : jsRem s 3600 = s - 3600 * (((⌊s⌋₊ / 3600 : ℕ) : ℤ) : ℚ) := by
    unfold jsRem
    rw [jsTrunc_of_nonneg h36, floor_div_3600 h]
  have e2 : (s - 3600 * (((⌊s⌋₊ / 3600 : ℕ) : ℤ) : ℚ)) / 60 =
      s / 60 - ((60 * ((⌊s⌋₊ / 3600 : ℕ) : ℤ) : ℤ) : ℚ) := by
    push_cast
    ring
  rw [e1, e2, Int.floor_sub_int, floor_div_60 h]
  omega

theorem floor_secs {s : Rat} (h : 0 ≤ s) :
    ⌊jsRem s 60⌋ = ((⌊s⌋₊ % 60 : ℕ) : ℤ) := by
  have h60 : (0 : ℚ) ≤ s / 60 := by positivity
  have e1 : jsRem s 60 = s - ((60 * ((⌊s⌋₊ / 60 : ℕ) : ℤ) : ℤ) : ℚ) := by
    unfold jsRem
    rw [jsTrunc_of_nonneg h60, floor_div_60 h]
    push_cast
    ring
  rw [e1, Int.floor_sub_int, intFloor_eq_natFloor h]
  omega

theorem toString_natCast (n : Nat) : toString ((n : ℤ)) = toString n := rfl

/-- The common rendering of both formatters on a nonnegative integer number
of seconds. -/
def renderSeconds (n : Nat) : String :=
  if 0 < n / 3600 then
    padStart2 (toString (n / 3600)) ++ ":" ++ padStart2 (toString (n % 3600 / 60))
      ++ ":" ++ padStart2 (toString (n % 60))
  else
    padStart2 (toString (n % 3600 / 60)) ++ ":" ++ padStart2 (toString (n % 60))

theorem formatTime_eq_renderSeconds {s : Rat} (h : 0 ≤ s) :
    formatTime s = renderSeconds ⌊s⌋₊ := by
  simp only [formatTime, renderSeconds]
  rw [floor_div_3600 h, floor_minutes h, floor_secs h]
  by_cases hpos : 0 < ⌊s⌋₊ / 3600
  · rw [if_pos (by exact_mod_cast hpos), if_pos hpos, toString_natCast,
      toString_natCast, toString_natCast]
  · rw [if_neg (by exact_mod_cast hpos), if_neg hpos, toString_natCast,
      toString_natCast]

theorem formatDuration_some_eq_renderSeconds {s : Rat} (h : 0 ≤ s) :
    formatDuration (some s) = renderSeconds ⌊s⌋₊ := by
  have hsafe : (max 0 ⌊(some s : Option ℚ).getD 0⌋).toNat = ⌊s⌋₊ := by
    simp only [Option.getD_some]
    rw [max_eq_right (Int.floor_nonneg.2 h), Int.floor_toNat]
  simp only [formatDuration, renderSeconds, hsafe]

/-- Claim C10: the two time formatters agree on their common domain — for
every finite `s ≥ 0`, `formatDuration s = formatTime s`, a zero-padded
`MM:SS` string when `s < 3600` and `HH:MM:SS` when `s ≥ 3600`; additionally
`formatDuration` clamps every negative, null, or undefined input to `00:00`,
which `formatTime` does not do. -/
theorem claim_C10 :
    (∀ s : Rat, 0 ≤ s →
      formatDuration (some s) = formatTime s
      ∧ (s < 3600 → ∃ m c : Nat, m < 60 ∧ c < 60 ∧
          formatTime s = padStart2 (toString m) ++ ":" ++ padStart2 (toString c))
      ∧ (3600 ≤ s → ∃ hh m c : Nat, 0 < hh ∧ m < 60 ∧ c < 60 ∧
          formatTime s = padStart2 (toString hh) ++ ":" ++ padStart2 (toString m)
            ++ ":" ++ padStart2 (toString c)))
    ∧ (∀ s : Rat, s < 0 → formatDuration (some s) = "00:00")
    ∧ formatDuration none = "00:00"
    ∧ (∃ s : Rat, s < 0 ∧ formatTime s ≠ "00:00") := by
  refine ⟨?_, ?_, by decide, ⟨-5, by norm_num, ?_⟩⟩
  · intro s hs
    refine ⟨?_, ?_, ?_⟩
    · rw [formatDuration_some_eq_renderSeconds hs, formatTime_eq_renderSeconds hs]
    · intro hlt
      have hN : ⌊s⌋₊ < 3600 := (Nat.floor_lt hs).2 (by exact_mod_cast hlt)
      refine ⟨⌊s⌋₊ % 3600 / 60, ⌊s⌋₊ % 60, by omega, by omega, ?_⟩
      rw [formatTime_eq_renderSeconds hs]
      simp only [renderSeconds]
      rw [if_neg (by omega)]
    · intro hge
      have hN : 3600 ≤ ⌊s⌋₊ := Nat.le_floor (by exact_mod_cast hge)
      refine ⟨⌊s⌋₊ / 3600, ⌊s⌋₊ % 3600 / 60, ⌊s⌋₊ % 60, by omega, by omega,
        by omega, ?_⟩
      rw [formatTime_eq_renderSeconds hs]
      simp only [renderSeconds]
      rw [if_pos (by omega)]
  · intro s hneg
    have hfloor : ⌊s⌋ < 0 := Int.floor_lt.2 (by exact_mod_cast hneg)
    have hsafe : (max 0 ⌊(some s : Option ℚ).getD 0⌋).toNat = 0 := by
      simp only [Option.getD_some]
      omega
    simp only [formatDuration, hsafe]
    decide
  · -- formatTime does not clamp: formatTime (-5) = "-1:-5"
    have t1 : jsTrunc ((-5 : ℚ) / 3600) = 0 := by
      have hm : ⌊-((-5 : ℚ) / 3600)⌋ = 0 := by
        rw [show -((-5 : ℚ) / 3600) = 5 / 3600 by ring]
        exact Int.floor_eq_iff.2 (by norm_num)
      unfold jsTrunc
      rw [if_pos (by norm_num), hm, neg_zero]
    have t2 : jsTrunc ((-5 : ℚ) / 60) = 0 := by
      have hm : ⌊-((-5 : ℚ) / 60)⌋ = 0 := by
        rw [show -((-5 : ℚ) / 60) = 5 / 60 by ring]
        exact Int.floor_eq_iff.2 (by norm_num)
      unfold jsTrunc
      rw [if_pos (by norm_num), hm, neg_zero]
    have r1 : jsRem (-5 : ℚ) 3600 = -5 := by
      unfold jsRem
      rw [t1]
      push_cast
      ring
    have r2 : jsRem (-5 : ℚ) 60 = -5 := by
      unfold jsRem
      rw [t2]
      push_cast
      ring
    have h1 : ⌊(-5 : ℚ) / 3600⌋ = -1 := Int.floor_eq_iff.2 (by norm_num)
    have m1 : ⌊jsRem (-5 : ℚ) 3600 / 60⌋ = -1 := by
      rw [r1]
      exact Int.floor_eq_iff.2 (by norm_num)
    have s1 : ⌊jsRem (-5 : ℚ) 60⌋ = -5 := by
      rw [r2, show (-5 : ℚ) = ((-5 : ℤ) : ℚ) by norm_num, Int.floor_intCast]
    simp only [formatTime, h1, m1, s1]
    rw [if_neg (by norm_num)]
    decide

theorem claim_C10_witness :
    ((0 : ℚ) ≤ 3
      ∧ formatDuration (some 3) = formatTime 3)
    ∧ ((-2 : ℚ) < 0 ∧ formatDuration (some (-2)) = "00:00") :=
  ⟨⟨by norm_num, (claim_C10.1 3 (by norm_num)).1⟩,
    by norm_num, claim_C10.2.1 (-2) (by norm_num)⟩

/-! ## Helper lemmas for the streaming loop (C3) and file lookups -/

theorem foldl_append_shift (l : List String) :
    ∀ a b : String, l.foldl (fun r s => r ++ s) (a ++ b) =
      a ++ l.foldl (fun r s => r ++ s) b := by
  induction l with
  | nil => intro a b; rfl
  | cons c t ih =>
    intro a b
    show t.foldl (fun r s => r ++ s) (a ++ b ++ c) =
      a ++ t.foldl (fun r s => r ++ s) (b ++ c)
    rw [String.append_assoc, ih]

theorem join_cons (c : String) (l : List String) :
    String.join (c :: l) = c ++ String.join l := by
  show l.foldl (fun r s => r ++ s) ("" ++ c) = c ++ l.foldl (fun r s => r ++ s) ""
  rw [String.empty_append, ← String.append_empty c, foldl_append_shift,
    String.append_empty]

theorem find?_updateFile_self (files : List FileRec) (fid : Nat)
    (upd : FileRec → FileRec) (hid : ∀ f, (upd f).id = f.id) :
    (updateFile files fid upd).find? (fun f => f.id == fid) =
      (files.find? (fun f => f.id == fid)).map upd := by
  induction files with
  | nil => rfl
  | cons a t ih =>
    by_cases ha : a.id = fid
    · have h1 : ((upd a).id == fid) = true := by simp [hid a, ha]
      have h2 : (a.id == fid) = true := by simp [ha]
      simp [updateFile, ha, List.find?_cons_of_pos, h1, h2]
    · have h1 : (a.id == fid) = false := by simp [ha]
      simp only [updateFile, List.map_cons, if_neg ha]
      rw [List.find?_cons_of_neg _ (by simp [ha]), List.find?_cons_of_neg _ (by simp [ha])]
      exact ih

theorem find?_updateFile_ne (files : List FileRec) (fid fid2 : Nat)
    (upd : FileRec → FileRec) (hid : ∀ f, (upd f).id = f.id) (hne : fid2 ≠ fid) :
    (updateFile files fid upd).find? (fun f => f.id == fid2) =
      files.find? (fun f => f.id == fid2) := by
  induction files with
  | nil => rfl
  | cons a t ih =>
    by_cases ha : a.id = fid
    · have h1 : ((upd a).id == fid2) = false := by simp [hid a, ha, Ne.symm hne]
      have h2 : (a.id == fid2) = false := by simp [ha, Ne.symm hne]
      simp only [updateFile, List.map_cons, if_pos ha]
      rw [List.find?_cons_of_neg _ (by simp [h1]), List.find?_cons_of_neg _ (by simp [h2])]
      exact ih
    · simp only [updateFile, List.map_cons, if_neg ha]
      by_cases hb : a.id = fid2
      · rw [List.find?_cons_of_pos _ (by simp [hb]), List.find?_cons_of_pos _ (by simp [hb])]
      · rw [List.find?_cons_of_neg _ (by simp [hb]), List.find?_cons_of_neg _ (by simp [hb])]
        exact ih

/-- Each stored value of the stream loop is the accumulator followed by the
join of the chunks received so far. -/
theorem streamLoop_stored (fileId : Nat) (store : String → FileRec → FileRec) :
    ∀ (chunks : List String) (acc : String) (files : List FileRec),
      (streamLoop fileId store chunks acc files).2.length = chunks.length
      ∧ ∀ i, i < chunks.length →
          (streamLoop fileId store chunks acc files).2[i]? =
            some (acc ++ String.join (chunks.take (i + 1))) := by
  intro chunks
  induction chunks with
  | nil => intro acc files; exact ⟨rfl, fun i hi => by simp at hi⟩
  | cons c cs ih =>
    intro acc files
    obtain ⟨ihlen, ihval⟩ := ih (acc ++ c)
      (updateFile files fileId (store (acc ++ c)))
    constructor
    · simpa [streamLoop] using ihlen
    · intro i hi
      cases i with
      | zero =>
        simp [streamLoop, join_cons, String.append_assoc, String.append_empty,
          show String.join [] = "" from rfl]
      | succ j =>
        have hj : j < cs.length := by simpa using hi
        have := ihval j hj
        simp only [streamLoop, List.getElem?_cons_succ]
        rw [this, List.take_succ_cons, join_cons, String.append_assoc]

/-- The final file list of the stream loop: the target file's stored field
holds the join of all chunks (provided the file is present). -/
theorem streamLoop_final (fileId : Nat) (store : String → FileRec → FileRec)
    (hid : ∀ acc f, (store acc f).id = f.id)
    (hover : ∀ a b f, store b (store a f) = store b f) :
    ∀ (chunks : List String) (acc : String) (files : List FileRec),
      chunks ≠ [] →
      (streamLoop fileId store chunks acc files).1.find? (fun f => f.id == fileId) =
        ((files.find? (fun f => f.id == fileId)).map
          (store (acc ++ String.join chunks))) := by
  intro chunks
  induction chunks with
  | nil => intro acc files h; exact absurd rfl h
  | cons c cs ih =>
    intro acc files _
    by_cases hcs : cs = []
    · subst hcs
      simp only [streamLoop]
      rw [find?_updateFile_self files fileId (store (acc ++ c)) (hid _)]
      have : String.join [c] = c := by
        rw [join_cons]
        exact String.append_empty c
      rw [this]
    · have := ih (acc ++ c) (updateFile files fileId (store (acc ++ c))) hcs
      simp only [streamLoop]
      rw [this, find?_updateFile_self files fileId (store (acc ++ c)) (hid _)]
      rw [join_cons, ← String.append_assoc]
      cases files.find? (fun f => f.id == fileId) with
      | none => rfl
      | some v => simp [hover]

/-- Claim C3: the summary fetch is streaming and accumulative — for a file
with a non-empty transcription (and no summary generation already running),
`handleSummary` stores after each chunk exactly the concatenation of the
chunks received so far, and finally a summary equal to the concatenation, in
arrival order, of all decoded chunks: nothing is reordered, dropped, or
duplicated. -/
theorem claim_C3 (uploadedFiles : List FileRec) (summaryLoadingFiles : Finset Nat)
    (fileId : Nat) (file : FileRec) (chunks : List String)
    (hfind : uploadedFiles.find? (fun f => f.id == fileId) = some file)
    (htrans : hasTranscription file = true)
    (hload : fileId ∉ summaryLoadingFiles) :
    ((handleSummary (.ok chunks) uploadedFiles summaryLoadingFiles
        fileId).storedValues.length = chunks.length)
    ∧ (∀ i, i < chunks.length →
        (handleSummary (.ok chunks) uploadedFiles summaryLoadingFiles
          fileId).storedValues[i]? = some (String.join (chunks.take (i + 1))))
    ∧ ∃ g, (handleSummary (.ok chunks) uploadedFiles summaryLoadingFiles
          fileId).uploadedFiles.find? (fun f => f.id == fileId) = some g
        ∧ g.summary = some (String.join chunks) := by
  have hid : ∀ (acc : String) (f : FileRec),
      ({ f with summary := some acc } : FileRec).id = f.id := fun _ _ => rfl
  simp only [handleSummary, hfind]
  rw [if_neg (by simp [checkTranscription, htrans]), if_neg hload]
  refine ⟨?_, ?_, ?_⟩
  · exact (streamLoop_stored fileId _ chunks ""
      (updateFile uploadedFiles fileId (fun f => { f with summary := some "" }))).1
  · intro i hi
    have := (streamLoop_stored fileId (fun acc f => { f with summary := some acc })
      chunks "" (updateFile uploadedFiles fileId
        (fun f => { f with summary := some "" }))).2 i hi
    simpa [String.empty_append] using this
  · cases hc : chunks with
    | nil =>
      refine ⟨{ file with summary := some "" }, ?_, rfl⟩
      show (updateFile uploadedFiles fileId
          (fun f => { f with summary := some "" })).find? (fun f => f.id == fileId)
        = some { file with summary := some "" }
      rw [find?_updateFile_self uploadedFiles fileId _ (hid ""), hfind]
      rfl
    | cons c cs =>
      have hfin := streamLoop_final fileId
        (fun acc f => { f with summary := some acc }) (hid) (fun _ _ _ => rfl)
        (c :: cs) ""
        (updateFile uploadedFiles fileId (fun f => { f with summary := some "" }))
        (by simp)
      refine ⟨{ file with summary := some (String.join (c :: cs)) }, ?_, rfl⟩
      rw [hfin, find?_updateFile_self uploadedFiles fileId _ (hid ""), hfind]
      rfl

/-- A concrete transcribed file used by the witnesses. -/
def sampleFile : FileRec :=
  { id := 1, name := "a", mime := "video/mp4", status := .done,
    transcription := some [⟨0, 1, "hi"⟩] }

theorem claim_C3_witness :
    ([sampleFile].find? (fun f => f.id == 1) = some sampleFile
      ∧ hasTranscription sampleFile = true
      ∧ (1 : Nat) ∉ (∅ : Finset Nat))
    ∧ (∀ i, i < (["ab", "cd"] : List String).length →
        (handleSummary (.ok ["ab", "cd"]) [sampleFile] ∅ 1).storedValues[i]?
          = some (String.join ((["ab", "cd"] : List String).take (i + 1)))) :=
  ⟨⟨by decide, by decide, by decide⟩,
    (claim_C3 [sampleFile] ∅ 1 sampleFile ["ab", "cd"] (by decide) (by decide)
      (by decide)).2.1⟩

/-! ## C2: aborting chat generation -/

theorem stopGeneration_spec (st : ChatState) (targetId : ChatKey) :
    (stopGeneration st targetId).chatRequest = none
    ∧ (stopGeneration st targetId).abortedPrevious = true
    ∧ targetId ∉ (stopGeneration st targetId).generatingFiles
    ∧ (∀ (ms : List Msg) (content : String),
        st.messagesByFile targetId = ms ++ [⟨"assistant", content⟩] →
        (stopGeneration st targetId).messagesByFile targetId =
          ms ++ [⟨"assistant", content ++ "\n\n" ++ stopMarker⟩]) := by
  refine ⟨rfl, rfl, Finset.not_mem_erase _ _, ?_⟩
  intro ms content hms
  show (if targetId = targetId then _ else _) = _
  rw [if_pos rfl]
  simp only [stopGeneration, hms, List.getLast?_concat, List.dropLast_concat]
  rfl

/-- Claim C2: chat generation is abortable — when the target is currently in
`generatingFiles` (and resolves: merged chat passes `contextText`, per-file
chat finds its file), `handleSendMessage` sends no new chat request, aborts
the in-flight request, removes the target from `generatingFiles`, and when
the conversation's last message is an assistant message, appends the marker
`*[已停止生成]*` (preceded by a blank line) to that message's content,
leaving all earlier messages unchanged. -/
theorem claim_C2 (resp : ChatResp) (st : ChatState) (targetId : ChatKey)
    (contextText : Option String)
    (hvalid : contextText = none →
      ∃ fid file, targetId = ChatKey.file fid
        ∧ st.uploadedFiles.find? (fun f => f.id == fid) = some file)
    (hgen : targetId ∈ st.generatingFiles) :
    (handleSendMessage resp st targetId contextText).chatRequest = none
    ∧ (handleSendMessage resp st targetId contextText).abortedPrevious = true
    ∧ targetId ∉ (handleSendMessage resp st targetId contextText).generatingFiles
    ∧ (∀ (ms : List Msg) (content : String),
        st.messagesByFile targetId = ms ++ [⟨"assistant", content⟩] →
        (handleSendMessage resp st targetId contextText).messagesByFile targetId =
          ms ++ [⟨"assistant", content ++ "\n\n" ++ stopMarker⟩]) := by
  have hbranch : handleSendMessage resp st targetId contextText =
      stopGeneration st targetId := by
    cases hct : contextText with
    | some t =>
      simp only [handleSendMessage]
      rw [if_neg (by simp), if_pos hgen]
    | none =>
      obtain ⟨fid, file, rfl, hfind⟩ := hvalid hct
      simp only [handleSendMessage]
      rw [if_neg (by simp [hct, hfind]), if_pos hgen]
  rw [hbranch]
  exact stopGeneration_spec st targetId

/-- The chat state used by the C2 witness: file 1 is generating and its
conversation ends with an assistant message. -/
def sampleChatState : ChatState :=
  { uploadedFiles := [sampleFile]
    generatingFiles := {ChatKey.file 1}
    messagesByFile := fun k =>
      if k = ChatKey.file 1 then [⟨"user", "hi"⟩, ⟨"assistant", "part"⟩] else []
    inputMessages := fun _ => "" }

theorem claim_C2_witness :
    (ChatKey.file 1 ∈ sampleChatState.generatingFiles
      ∧ sampleChatState.messagesByFile (ChatKey.file 1) =
          [⟨"user", "hi"⟩] ++ [⟨"assistant", "part"⟩])
    ∧ (handleSendMessage (.ok []) sampleChatState (ChatKey.file 1)
        none).messagesByFile (ChatKey.file 1) =
        [⟨"user", "hi"⟩] ++ [⟨"assistant", "part" ++ "\n\n" ++ stopMarker⟩] :=
  ⟨⟨by decide, by decide⟩,
    (claim_C2 (.ok []) sampleChatState (ChatKey.file 1) none
        (fun _ => ⟨1, sampleFile, rfl, by decide⟩) (by decide)).2.2.2
      [⟨"user", "hi"⟩] "part" (by decide)⟩

/-! ## C4: the transcription gate -/

/-- A file without transcription, for the C4 inputs. -/
def noTransFile : FileRec :=
  { id := 1, name := "b", mime := "audio/mp3" }

/-- A state in which the untranscribed file 1 is (counterfactually) marked as
generating and its conversation ends with an assistant message. -/
def gateCexState : ChatState :=
  { uploadedFiles := [noTransFile]
    generatingFiles := {ChatKey.file 1}
    messagesByFile := fun k => if k = ChatKey.file 1 then [⟨"assistant", "a"⟩] else []
    inputMessages := fun _ => "x" }

/-- Counterexample to claim C4 as stated: with the untranscribed file 1 in
`generatingFiles`, `handleSendMessage` takes the stop branch (App.js
line 1177) before the transcription gate (line 1204): no warning is shown,
the chat state changes, and a persist request is issued. -/
theorem claim_C4_counterexample :
    hasTranscription noTransFile = false
    ∧ gateCexState.uploadedFiles.find? (fun f => f.id == 1) = some noTransFile
    ∧ (handleSendMessage (.ok []) gateCexState (ChatKey.file 1) none).warning ≠
        some transcriptionGateWarning
    ∧ (handleSendMessage (.ok []) gateCexState (ChatKey.file 1) none).messagesByFile
        (ChatKey.file 1) ≠ gateCexState.messagesByFile (ChatKey.file 1)
    ∧ (handleSendMessage (.ok []) gateCexState (ChatKey.file 1) none).persisted ≠
        none := by
  refine ⟨by decide, by decide, by decide, by decide, by decide⟩

/-- Claim C4, amended: for every uploaded file without a non-empty
transcription, `handleSummary`, `handleDetailedSummary` and `handleMindmap`
show the warning `需等待视频/音频完成转录` and return without issuing any
backend request and without changing any state; `handleSendMessage` (per-file
form) does the same provided the target is not currently in
`generatingFiles`. -/
theorem claim_C4 (respS respD : StreamResp) (respM : MindmapResp)
    (respC : ChatResp) (uploadedFiles : List FileRec)
    (loadS loadD loadM : Finset Nat) (st : ChatState) (fileId : Nat)
    (file : FileRec)
    (hfind : uploadedFiles.find? (fun f => f.id == fileId) = some file)
    (htrans : hasTranscription file = false) :
    handleSummary respS uploadedFiles loadS fileId =
      ⟨uploadedFiles, loadS, false, some transcriptionGateWarning, false, []⟩
    ∧ handleDetailedSummary respD uploadedFiles loadD fileId =
      ⟨uploadedFiles, loadD, false, some transcriptionGateWarning, false, []⟩
    ∧ handleMindmap respM uploadedFiles loadM fileId =
      ⟨uploadedFiles, loadM, false, some transcriptionGateWarning, false, []⟩
    ∧ (st.uploadedFiles.find? (fun f => f.id == fileId) = some file →
      ChatKey.file fileId ∉ st.generatingFiles →
      handleSendMessage respC st (ChatKey.file fileId) none =
        ⟨st.generatingFiles, st.messagesByFile, st.inputMessages, false, none,
          none, some transcriptionGateWarning⟩) := by
  refine ⟨?_, ?_, ?_, ?_⟩
  · simp only [handleSummary, hfind]
    rw [if_pos (by simp [checkTranscription, htrans])]
  · simp only [handleDetailedSummary, hfind]
    rw [if_pos (by simp [checkTranscription, htrans])]
  · simp only [handleMindmap, hfind]
    rw [if_pos (by simp [checkTranscription, htrans])]
  · intro hfind2 hgen
    simp only [handleSendMessage]
    rw [if_neg (by simp [hfind2]), if_neg hgen,
      if_pos (by simp [hfind2, checkTranscription, htrans])]

/-- The C4 witness state: the untranscribed file exists, nothing is
generating. -/
def gateWitnessState : ChatState :=
  { uploadedFiles := [noTransFile]
    generatingFiles := ∅
    messagesByFile := fun _ => []
    inputMessages := fun _ => "x" }

theorem claim_C4_witness :
    ([noTransFile].find? (fun f => f.id == 1) = some noTransFile
      ∧ hasTranscription noTransFile = false
      ∧ gateWitnessState.uploadedFiles.find? (fun f => f.id == 1) = some noTransFile
      ∧ ChatKey.file 1 ∉ gateWitnessState.generatingFiles)
    ∧ handleSummary .httpError [noTransFile] ∅ 1 =
        ⟨[noTransFile], ∅, false, some transcriptionGateWarning, false, []⟩
    ∧ handleSendMessage (.ok []) gateWitnessState (ChatKey.file 1) none =
        ⟨gateWitnessState.generatingFiles, gateWitnessState.messagesByFile,
          gateWitnessState.inputMessages, false, none, none,
          some transcriptionGateWarning⟩ :=
  ⟨⟨by decide, by decide, by decide, by decide⟩,
    (claim_C4 .httpError .httpError .httpError (.ok []) [noTransFile] ∅ ∅ ∅
        gateWitnessState 1 noTransFile (by decide) (by decide)).1,
    (claim_C4 .httpError .httpError .httpError (.ok []) [noTransFile] ∅ ∅ ∅
        gateWitnessState 1 noTransFile (by decide) (by decide)).2.2.2
      (by decide) (by decide)⟩

/-! ## C5: persistence delegated to the backend -/

/-- Counterexample to claim C5 as stated ("no operation of this code writes
any state to a durable store"): `persistChatHistory` exists precisely to
write the conversation to the backend chat-history store (read back by
`loadChatHistory` in later sessions), and `handleMergedSummary` writes the
generated summary to the backend merged-summary store (read back by the
`mergedSelectionKey` effect, App.js lines 397-443). -/
theorem claim_C5_counterexample :
    persistChatHistory (ChatKey.file 1) [⟨"user", "hi"⟩] =
      some ⟨"http://localhost:8000/api/chat-history", ChatKey.file 1,
        [⟨"user", "hi"⟩]⟩
    ∧ (handleMergedSummary (.ok ["S"]) [sampleFile] false "t" "1").persisted =
      some ⟨"http://localhost:8000/api/merged-summary", "1", "S"⟩ :=
  ⟨by decide, by decide⟩

/-- Claim C5, amended: the state managed in the browser is transient UI
state and the code writes no browser-local durable store; it does, however,
delegate persistence to the backend — `persistChatHistory` POSTs the
conversation to `/api/chat-history` exactly when the context key is truthy,
and `handleMergedSummary` POSTs the generated summary to
`/api/merged-summary` exactly when both the selection key and the generated
text are non-empty. -/
theorem claim_C5 (contextKey : ChatKey) (messages : List Msg)
    (mergedFiles : List FileRec) (mergedText mergedSelectionKey : String)
    (chunks : List String) (hfiles : mergedFiles ≠ []) :
    (contextKey.falsy = true → persistChatHistory contextKey messages = none)
    ∧ (contextKey.falsy = false →
        persistChatHistory contextKey messages =
          some ⟨"http://localhost:8000/api/chat-history", contextKey, messages⟩)
    ∧ ((handleMergedSummary (.ok chunks) mergedFiles false mergedText
          mergedSelectionKey).persisted =
        if mergedSelectionKey ≠ "" ∧ String.join chunks ≠ "" then
          some ⟨"http://localhost:8000/api/merged-summary", mergedSelectionKey,
            String.join chunks⟩
        else none) := by
  refine ⟨?_, ?_, ?_⟩
  · intro h
    simp [persistChatHistory, h]
  · intro h
    simp [persistChatHistory, h]
  · simp only [handleMergedSummary]
    rw [if_neg (by simpa using hfiles), if_neg (by simp)]

theorem claim_C5_witness :
    (ChatKey.falsy (ChatKey.file 2) = false
      ∧ persistChatHistory (ChatKey.file 2) [] =
          some ⟨"http://localhost:8000/api/chat-history", ChatKey.file 2, []⟩)
    ∧ (([sampleFile] : List FileRec) ≠ []
      ∧ (handleMergedSummary (.ok []) [sampleFile] false "t" "1").persisted =
          (if ("1" : String) ≠ "" ∧ String.join [] ≠ "" then
            some ⟨"http://localhost:8000/api/merged-summary", "1",
              String.join []⟩
          else none)) :=
  ⟨⟨by decide,
      (claim_C5 (ChatKey.file 2) [] [sampleFile] "t" "1" [] (by decide)).2.1 rfl⟩,
    by decide,
    (claim_C5 (ChatKey.file 2) [] [sampleFile] "t" "1" [] (by decide)).2.2⟩

/-! ## C6: progress polling -/

theorem toDigitsCore_ne_nil : ∀ (fuel b n : Nat) (ds : List Char), ds ≠ [] →
    Nat.toDigitsCore b fuel n ds ≠ []
  | 0, _, _, _, h => by simpa [Nat.toDigitsCore] using h
  | fuel + 1, b, n, ds, h => by
    simp only [Nat.toDigitsCore]
    split
    · simp
    · exact toDigitsCore_ne_nil fuel b (n / b) _ (by simp)

theorem toDigits_ne_nil (b n : Nat) : Nat.toDigits b n ≠ [] := by
  unfold Nat.toDigits
  simp only [Nat.toDigitsCore]
  split
  · simp
  · exact toDigitsCore_ne_nil _ _ _ _ (by simp)

theorem nat_toString_ne_empty (n : Nat) : toString n ≠ "" := by
  show Nat.repr n ≠ ""
  unfold Nat.repr
  intro h
  have hd : (Nat.toDigits 10 n) = [] := by
    have := congrArg String.data h
    simpa [List.asString] using this
  exact toDigits_ne_nil 10 n hd

theorem intercalate_go_length (s : String) : ∀ (as : List String) (acc : String),
    acc.length ≤ (String.intercalate.go acc s as).length
  | [], _ => le_refl _
  | a :: as, acc => by
    have h1 := intercalate_go_length s as (acc ++ s ++ a)
    have h2 : acc.length ≤ (acc ++ s ++ a).length := by
      simp only [String.length_append]
      omega
    exact le_trans h2 h1

theorem string_length_zero {s : String} (h : s.length = 0) : s = "" := by
  apply String.ext
  have hd : s.data = [] := List.length_eq_zero.mp h
  simp [hd]

theorem transcribingKey_ne_empty {files : List FileRec}
    (h : transcribingIds files ≠ []) : transcribingKey files ≠ "" := by
  unfold transcribingKey
  cases hids : transcribingIds files with
  | nil => exact absurd hids h
  | cons a rest =>
    show String.intercalate "|" ((a :: rest).map toString) ≠ ""
    simp only [List.map_cons]
    show String.intercalate.go (toString a) "|" (rest.map toString) ≠ ""
    intro hempty
    have hlen := intercalate_go_length "|" (rest.map toString) (toString a)
    rw [hempty] at hlen
    have hz : (toString a).length = 0 := by simpa using hlen
    exact nat_toString_ne_empty a (string_length_zero hz)

theorem mem_transcribingIds (files : List FileRec) (id : Nat) :
    id ∈ transcribingIds files ↔
      ∃ f ∈ files, f.id = id ∧ f.status = FStatus.transcribing := by
  simp only [transcribingIds, List.mem_map, List.mem_filter]
  constructor
  · rintro ⟨f, ⟨hf, hst⟩, rfl⟩
    exact ⟨f, hf, rfl, by simpa using hst⟩
  · rintro ⟨f, hf, rfl, hst⟩
    exact ⟨f, ⟨hf, by simpa using hst⟩, rfl⟩

theorem length_progressStep (resp : Nat → Option ProgressData)
    (files : List FileRec) (fid : Nat) :
    (progressStep resp files fid).length = files.length := by
  unfold progressStep
  cases resp fid <;> simp [updateFile]

theorem getElem?_progressStep_none (resp : Nat → Option ProgressData)
    (files : List FileRec) (fid : Nat) (hresp : resp fid = none) (i : Nat) :
    (progressStep resp files fid)[i]? = files[i]? := by
  unfold progressStep
  rw [hresp]

theorem getElem?_progressStep_some (resp : Nat → Option ProgressData)
    (files : List FileRec) (fid : Nat) (d : ProgressData) (f : FileRec)
    (i : Nat) (hresp : resp fid = some d) (hf : files[i]? = some f) :
    (progressStep resp files fid)[i]? =
      some (if f.id = fid then applyProgress d f else f) := by
  unfold progressStep
  rw [hresp]
  show (updateFile files fid (applyProgress d))[i]? = _
  unfold updateFile
  rw [List.getElem?_map, hf]
  rfl

/-- Full characterization of one `fetchProgress` pass: a file whose id was
not polled, or whose poll failed, is unchanged entirely; a polled file with a
successful response gets exactly the three progress fields replaced by the
decoded values. -/
theorem fetchProgress_update (resp : Nat → Option ProgressData) :
    ∀ (ids : List Nat) (files : List FileRec),
      ((fetchProgress resp ids files).1.length = files.length)
      ∧ ∀ (i : Nat) (f : FileRec), files[i]? = some f →
          (f.id ∉ ids → (fetchProgress resp ids files).1[i]? = some f)
          ∧ (resp f.id = none → (fetchProgress resp ids files).1[i]? = some f)
          ∧ (∀ d, resp f.id = some d → f.id ∈ ids →
              (fetchProgress resp ids files).1[i]? = some (applyProgress d f)) := by
  intro ids
  induction ids with
  | nil =>
    intro files
    refine ⟨rfl, fun i f hf => ⟨fun _ => hf, fun _ => hf, ?_⟩⟩
    intro d _ hmem
    exact absurd hmem (by simp)
  | cons fid rest ih =>
    intro files
    obtain ⟨ihlen, ihget⟩ := ih (progressStep resp files fid)
    have hlen1 : (progressStep resp files fid).length = files.length :=
      length_progressStep resp files fid
    constructor
    · show (fetchProgress resp rest (progressStep resp files fid)).1.length = _
      rw [ihlen, hlen1]
    intro i f hf
    have hcast : ∀ P : List FileRec → Prop,
        P (fetchProgress resp rest (progressStep resp files fid)).1 →
        P (fetchProgress resp (fid :: rest) files).1 := fun _ h => h
    by_cases hij : f.id = fid
    · cases hresp : resp fid with
      | none =>
        have hf1 : (progressStep resp files fid)[i]? = some f := by
          rw [getElem?_progressStep_none resp files fid hresp i]
          exact hf
        obtain ⟨g1, g2, g3⟩ := ihget i f hf1
        refine ⟨?_, ?_, ?_⟩
        · intro hmem
          exact hcast (fun l => l[i]? = some f)
            (g1 (fun hc => hmem (List.mem_cons_of_mem _ hc)))
        · intro hnone
          exact hcast (fun l => l[i]? = some f) (g2 hnone)
        · intro d hsome _
          rw [hij] at hsome
          rw [hsome] at hresp
          cases hresp
      | some d0 =>
        have hf1 : (progressStep resp files fid)[i]? = some (applyProgress d0 f) := by
          rw [getElem?_progressStep_some resp files fid d0 f i hresp hf, if_pos hij]
        obtain ⟨g1, g2, g3⟩ := ihget i (applyProgress d0 f) hf1
        refine ⟨?_, ?_, ?_⟩
        · intro hmem
          exact absurd (hij ▸ List.mem_cons_self fid rest) hmem
        · intro hnone
          rw [hij] at hnone
          rw [hnone] at hresp
          cases hresp
        · intro d hsome _
          have hdd : d = d0 := by
            have hss : some d = some d0 := by rw [← hsome, hij, hresp]
            exact Option.some.inj hss
          subst hdd
          have hid1 : (applyProgress d f).id = f.id := rfl
          by_cases hrest : f.id ∈ rest
          · have hg := g3 d (by rw [hid1]; exact hsome) (by rw [hid1]; exact hrest)
            have happ : applyProgress d (applyProgress d f) = applyProgress d f := rfl
            rw [happ] at hg
            exact hcast (fun l => l[i]? = some (applyProgress d f)) hg
          · have hg := g1 (by rw [hid1]; exact hrest)
            exact hcast (fun l => l[i]? = some (applyProgress d f)) hg
    · have hf1 : (progressStep resp files fid)[i]? = some f := by
        cases hresp : resp fid with
        | none =>
          rw [getElem?_progressStep_none resp files fid hresp i]
          exact hf
        | some d0 =>
          rw [getElem?_progressStep_some resp files fid d0 f i hresp hf, if_neg hij]
      obtain ⟨g1, g2, g3⟩ := ihget i f hf1
      refine ⟨?_, ?_, ?_⟩
      · intro hmem
        exact hcast (fun l => l[i]? = some f)
          (g1 (fun hc => hmem (List.mem_cons_of_mem _ hc)))
      · intro hnone
        exact hcast (fun l => l[i]? = some f) (g2 hnone)
      · intro d hsome hmem
        have hrest : f.id ∈ rest := by
          cases List.mem_cons.mp hmem with
          | inl h => exact absurd h hij
          | inr h => exact h
        exact hcast (fun l => l[i]? = some (applyProgress d f)) (g3 d hsome hrest)

/-- Claim C6: progress polling is interval-based and confined to
transcribing files — when at least one file is transcribing, the effect
fires (immediately and then once per `setInterval` tick, with a 1000 ms
period) over exactly the transcribing ids; the requests issued are exactly
those ids (so never a non-transcribing file); each successful response
replaces only the matching file's `transcribeProgress`,
`transcribeProgressCurrent` and `transcribeProgressDuration` fields, a failed
poll changes nothing, and every other file is unchanged. -/
theorem claim_C6 (resp : Nat → Option ProgressData) (files : List FileRec)
    (htrans : ∃ f ∈ files, f.status = FStatus.transcribing) :
    progressPollEffect files = some (transcribingIds files, 1000)
    ∧ (fetchProgress resp (transcribingIds files) files).2 = transcribingIds files
    ∧ (∀ id, id ∈ (fetchProgress resp (transcribingIds files) files).2 ↔
        ∃ f ∈ files, f.id = id ∧ f.status = FStatus.transcribing)
    ∧ (fetchProgress resp (transcribingIds files) files).1.length = files.length
    ∧ ∀ (i : Nat) (f : FileRec), files[i]? = some f →
        (f.id ∉ transcribingIds files →
          (fetchProgress resp (transcribingIds files) files).1[i]? = some f)
        ∧ (resp f.id = none →
          (fetchProgress resp (transcribingIds files) files).1[i]? = some f)
        ∧ (∀ d, resp f.id = some d → f.id ∈ transcribingIds files →
            (fetchProgress resp (transcribingIds files) files).1[i]? =
              some (applyProgress d f)) := by
  have hids : transcribingIds files ≠ [] := by
    obtain ⟨f, hf, hst⟩ := htrans
    intro hnil
    have hm : f.id ∈ transcribingIds files :=
      (mem_transcribingIds files f.id).2 ⟨f, hf, rfl, hst⟩
    rw [hnil] at hm
    simp at hm
  refine ⟨?_, rfl, fun id => mem_transcribingIds files id,
    (fetchProgress_update resp (transcribingIds files) files).1,
    (fetchProgress_update resp (transcribingIds files) files).2⟩
  unfold progressPollEffect
  rw [if_neg (transcribingKey_ne_empty hids)]

/-- A transcribing file, for the C6 witness. -/
def pollFile : FileRec := { id := 2, name := "c", status := .transcribing }

theorem claim_C6_witness :
    (∃ f ∈ [pollFile], f.status = FStatus.transcribing)
    ∧ progressPollEffect [pollFile] = some (transcribingIds [pollFile], 1000) :=
  ⟨⟨pollFile, by simp, by decide⟩,
    (claim_C6 (fun _ => none) [pollFile] ⟨pollFile, by simp, by decide⟩).1⟩

/-! ## C1: the batch transcription queue -/

theorem markTranscribing_id (now : Rat) (f : FileRec) :
    (markTranscribing now f).id = f.id := rfl

theorem markDone_id (now : Rat) (t : List TransItem) (f : FileRec) :
    (markDone now t f).id = f.id := rfl

theorem markError_id (now : Rat) (f : FileRec) : (markError now f).id = f.id := rfl

theorem markInterrupted_id (now : Rat) (f : FileRec) :
    (markInterrupted now f).id = f.id := rfl

/-- The event trace of the loop does not depend on the evolving list: it is
the per-file claim blocks of the eligible selection, cut at the first 499. -/
theorem batchLoop_events (resp : Nat → TResp) (now : Rat) (orig : List FileRec) :
    ∀ (sel : List Nat) (files : List FileRec),
      (batchLoop resp now false orig sel files).2 =
        (truncAt499 resp (eligibleIds orig sel)).flatMap (claimBlock resp) := by
  intro sel
  induction sel with
  | nil => intro files; rfl
  | cons fid rest ih =>
    intro files
    cases hfind : orig.find? (fun f => f.id == fid) with
    | none =>
      simp [batchLoop, hfind, eligibleIds, List.filter_cons, ih files]
    | some file =>
      by_cases hdone : file.status = FStatus.done
      · simp [batchLoop, hfind, hdone, eligibleIds, List.filter_cons, ih files]
      · cases hresp : resp fid with
        | ok t =>
          simp [batchLoop, hfind, hdone, hresp, eligibleIds, List.filter_cons,
            truncAt499, claimBlock, ih]
        | fail =>
          simp [batchLoop, hfind, hdone, hresp, eligibleIds, List.filter_cons,
            truncAt499, claimBlock, ih]
        | abort499 =>
          simp [batchLoop, hfind, hdone, hresp, eligibleIds, List.filter_cons,
            truncAt499, claimBlock]

theorem requestedIds_flatMap (resp : Nat → TResp) :
    ∀ l : List Nat, requestedIds (l.flatMap (claimBlock resp)) = l := by
  intro l
  induction l with
  | nil => rfl
  | cons a t ih =>
    cases hresp : resp a with
    | ok tr => simp [requestedIds, claimBlock, hresp] at ih ⊢; exact ih
    | fail => simp [requestedIds, claimBlock, hresp] at ih ⊢; exact ih
    | abort499 => simp [requestedIds, claimBlock, hresp] at ih ⊢; exact ih

theorem mem_truncAt499 (resp : Nat → TResp) :
    ∀ (l : List Nat) (fid : Nat), fid ∈ truncAt499 resp l → fid ∈ l := by
  intro l
  induction l with
  | nil => intro fid h; simp [truncAt499] at h
  | cons a t ih =>
    intro fid h
    cases hresp : resp a with
    | ok tr =>
      rw [truncAt499, hresp] at h
      rcases List.mem_cons.mp h with h1 | h1
      · exact h1 ▸ List.mem_cons_self a t
      · exact List.mem_cons_of_mem a (ih fid h1)
    | fail =>
      rw [truncAt499, hresp] at h
      rcases List.mem_cons.mp h with h1 | h1
      · exact h1 ▸ List.mem_cons_self a t
      · exact List.mem_cons_of_mem a (ih fid h1)
    | abort499 =>
      rw [truncAt499, hresp] at h
      simp only [List.mem_singleton] at h
      exact h ▸ List.mem_cons_self a t

theorem mem_eligibleIds {orig : List FileRec} {sel : List Nat} {fid : Nat}
    (h : fid ∈ eligibleIds orig sel) :
    fid ∈ sel ∧ ∃ f, orig.find? (fun g => g.id == fid) = some f
      ∧ f.status ≠ FStatus.done := by
  rw [eligibleIds, List.mem_filter] at h
  obtain ⟨hsel, hpred⟩ := h
  refine ⟨hsel, ?_⟩
  cases hfind : orig.find? (fun g => g.id == fid) with
  | none => rw [hfind] at hpred; cases hpred
  | some f =>
    rw [hfind] at hpred
    exact ⟨f, rfl, by simpa using hpred⟩

/-- Files whose id was never requested are untouched by the loop. -/
theorem batchLoop_frame (resp : Nat → TResp) (now : Rat) (orig : List FileRec) :
    ∀ (sel : List Nat) (files : List FileRec) (fid : Nat),
      fid ∉ requestedIds (batchLoop resp now false orig sel files).2 →
      (batchLoop resp now false orig sel files).1.find? (fun f => f.id == fid) =
        files.find? (fun f => f.id == fid) := by
  intro sel
  induction sel with
  | nil => intro files fid _; rfl
  | cons fid0 rest ih =>
    intro files fid hnot
    cases hfind : orig.find? (fun f => f.id == fid0) with
    | none =>
      have hev : (batchLoop resp now false orig (fid0 :: rest) files) =
          (batchLoop resp now false orig rest files) := by
        simp [batchLoop, hfind]
      rw [hev] at hnot ⊢
      exact ih files fid hnot
    | some file =>
      by_cases hdone : file.status = FStatus.done
      · have hev : (batchLoop resp now false orig (fid0 :: rest) files) =
            (batchLoop resp now false orig rest files) := by
          simp [batchLoop, hfind, hdone]
        rw [hev] at hnot ⊢
        exact ih files fid hnot
      · cases hresp : resp fid0 with
        | abort499 =>
          have hev : (batchLoop resp now false orig (fid0 :: rest) files) =
              (updateFile (updateFile files fid0 (markTranscribing now)) fid0
                  (markInterrupted now),
                [.setTranscribing fid0, .request fid0, .setInterrupted fid0]) := by
            simp [batchLoop, hfind, hdone, hresp]
          rw [hev] at hnot ⊢
          have hne : fid ≠ fid0 := by
            intro heq
            exact hnot (by simp [requestedIds, heq])
          rw [find?_updateFile_ne _ _ _ _ (markInterrupted_id now) hne,
            find?_updateFile_ne _ _ _ _ (markTranscribing_id now) hne]
        | ok t =>
          have hev : (batchLoop resp now false orig (fid0 :: rest) files) =
              ((batchLoop resp now false orig rest
                  (updateFile (updateFile files fid0 (markTranscribing now)) fid0
                    (markDone now t))).1,
                .setTranscribing fid0 :: .request fid0 :: .setDone fid0 t ::
                  (batchLoop resp now false orig rest
                    (updateFile (updateFile files fid0 (markTranscribing now)) fid0
                      (markDone now t))).2) := by
            simp [batchLoop, hfind, hdone, hresp]
          rw [hev] at hnot ⊢
          have hne : fid ≠ fid0 := by
            intro heq
            exact hnot (by simp [requestedIds, heq])
          have hnot2 : fid ∉ requestedIds (batchLoop resp now false orig rest
              (updateFile (updateFile files fid0 (markTranscribing now)) fid0
                (markDone now t))).2 := by
            intro hc
            exact hnot (by simp [requestedIds] at hc ⊢; right; exact hc)
          rw [ih _ fid hnot2,
            find?_updateFile_ne _ _ _ _ (markDone_id now t) hne,
            find?_updateFile_ne _ _ _ _ (markTranscribing_id now) hne]
        | fail =>
          have hev : (batchLoop resp now false orig (fid0 :: rest) files) =
              ((batchLoop resp now false orig rest
                  (updateFile (updateFile files fid0 (markTranscribing now)) fid0
                    (markError now))).1,
                .setTranscribing fid0 :: .request fid0 :: .setError fid0 ::
                  (batchLoop resp now false orig rest
                    (updateFile (updateFile files fid0 (markTranscribing now)) fid0
                      (markError now))).2) := by
            simp [batchLoop, hfind, hdone, hresp]
          rw [hev] at hnot ⊢
          have hne : fid ≠ fid0 := by
            intro heq
            exact hnot (by simp [requestedIds, heq])
          have hnot2 : fid ∉ requestedIds (batchLoop resp now false orig rest
              (updateFile (updateFile files fid0 (markTranscribing now)) fid0
                (markError now))).2 := by
            intro hc
            exact hnot (by simp [requestedIds] at hc ⊢; right; exact hc)
          rw [ih _ fid hnot2,
            find?_updateFile_ne _ _ _ _ (markError_id now) hne,
            find?_updateFile_ne _ _ _ _ (markTranscribing_id now) hne]

theorem requestedIds_setTranscribing (fid : Nat) (evs : List BatchEvent) :
    requestedIds (.setTranscribing fid :: evs) = requestedIds evs := rfl

theorem requestedIds_request (fid : Nat) (evs : List BatchEvent) :
    requestedIds (.request fid :: evs) = fid :: requestedIds evs := rfl

theorem requestedIds_setDone (fid : Nat) (t : List TransItem)
    (evs : List BatchEvent) :
    requestedIds (.setDone fid t :: evs) = requestedIds evs := rfl

theorem requestedIds_setError (fid : Nat) (evs : List BatchEvent) :
    requestedIds (.setError fid :: evs) = requestedIds evs := rfl

/-- Every requested file ends in the state dictated by its response: `done`
with the returned transcription on success, `error` on failure,
`interrupted` on HTTP 499. -/
theorem batchLoop_status (resp : Nat → TResp) (now : Rat) (orig : List FileRec) :
    ∀ (sel : List Nat) (files : List FileRec) (fid : Nat),
      fid ∈ requestedIds (batchLoop resp now false orig sel files).2 →
      (files.find? (fun f => f.id == fid)).isSome →
      ∃ g, (batchLoop resp now false orig sel files).1.find?
          (fun f => f.id == fid) = some g
        ∧ (match resp fid with
            | .ok t => g.status = FStatus.done ∧ g.transcription = some t
            | .fail => g.status = FStatus.error
            | .abort499 => g.status = FStatus.interrupted) := by
  intro sel
  induction sel with
  | nil => intro files fid h; simp [batchLoop, requestedIds] at h
  | cons fid0 rest ih =>
    intro files fid hreq hsome
    cases hfind : orig.find? (fun f => f.id == fid0) with
    | none =>
      have hev : (batchLoop resp now false orig (fid0 :: rest) files) =
          (batchLoop resp now false orig rest files) := by
        simp [batchLoop, hfind]
      rw [hev] at hreq ⊢
      exact ih files fid hreq hsome
    | some file =>
      by_cases hdone : file.status = FStatus.done
      · have hev : (batchLoop resp now false orig (fid0 :: rest) files) =
            (batchLoop resp now false orig rest files) := by
          simp [batchLoop, hfind, hdone]
        rw [hev] at hreq ⊢
        exact ih files fid hreq hsome
      · cases hresp : resp fid0 with
        | abort499 =>
          have hev : (batchLoop resp now false orig (fid0 :: rest) files) =
              (updateFile (updateFile files fid0 (markTranscribing now)) fid0
                  (markInterrupted now),
                [.setTranscribing fid0, .request fid0, .setInterrupted fid0]) := by
            simp [batchLoop, hfind, hdone, hresp]
          rw [hev] at hreq ⊢
          have hfid : fid = fid0 := by simpa [requestedIds] using hreq
          subst hfid
          obtain ⟨f0, hf0⟩ := Option.isSome_iff_exists.mp hsome
          refine ⟨markInterrupted now (markTranscribing now f0), ?_, ?_⟩
          · rw [find?_updateFile_self _ _ _ (markInterrupted_id now),
              find?_updateFile_self _ _ _ (markTranscribing_id now), hf0]
            rfl
          · rw [hresp]
            rfl
        | ok t =>
          have hev : (batchLoop resp now false orig (fid0 :: rest) files) =
              ((batchLoop resp now false orig rest
                  (updateFile (updateFile files fid0 (markTranscribing now)) fid0
                    (markDone now t))).1,
                .setTranscribing fid0 :: .request fid0 :: .setDone fid0 t ::
                  (batchLoop resp now false orig rest
                    (updateFile (updateFile files fid0 (markTranscribing now)) fid0
                      (markDone now t))).2) := by
            simp [batchLoop, hfind, hdone, hresp]
          rw [hev] at hreq ⊢
          have hsome2 : ((updateFile (updateFile files fid0 (markTranscribing now))
              fid0 (markDone now t)).find? (fun f => f.id == fid)).isSome := by
            by_cases hne : fid = fid0
            · subst hne
              rw [find?_updateFile_self _ _ _ (markDone_id now t),
                find?_updateFile_self _ _ _ (markTranscribing_id now)]
              simpa using hsome
            · rw [find?_updateFile_ne _ _ _ _ (markDone_id now t) hne,
                find?_updateFile_ne _ _ _ _ (markTranscribing_id now) hne]
              exact hsome
          by_cases hrest : fid ∈ requestedIds (batchLoop resp now false orig rest
              (updateFile (updateFile files fid0 (markTranscribing now)) fid0
                (markDone now t))).2
          · exact ih _ fid hrest hsome2
          · have hfid : fid = fid0 := by
              rw [requestedIds_setTranscribing, requestedIds_request,
                requestedIds_setDone] at hreq
              rcases List.mem_cons.mp hreq with h1 | h1
              · exact h1
              · exact absurd h1 hrest
            subst hfid
            obtain ⟨f0, hf0⟩ := Option.isSome_iff_exists.mp hsome
            refine ⟨markDone now t (markTranscribing now f0), ?_, ?_⟩
            · rw [batchLoop_frame resp now orig rest _ fid hrest,
                find?_updateFile_self _ _ _ (markDone_id now t),
                find?_updateFile_self _ _ _ (markTranscribing_id now), hf0]
              rfl
            · rw [hresp]
              exact ⟨rfl, rfl⟩
        | fail =>
          have hev : (batchLoop resp now false orig (fid0 :: rest) files) =
              ((batchLoop resp now false orig rest
                  (updateFile (updateFile files fid0 (markTranscribing now)) fid0
                    (markError now))).1,
                .setTranscribing fid0 :: .request fid0 :: .setError fid0 ::
                  (batchLoop resp now false orig rest
                    (updateFile (updateFile files fid0 (markTranscribing now)) fid0
                      (markError now))).2) := by
            simp [batchLoop, hfind, hdone, hresp]
          rw [hev] at hreq ⊢
          have hsome2 : ((updateFile (updateFile files fid0 (markTranscribing now))
              fid0 (markError now)).find? (fun f => f.id == fid)).isSome := by
            by_cases hne : fid = fid0
            · subst hne
              rw [find?_updateFile_self _ _ _ (markError_id now),
                find?_updateFile_self _ _ _ (markTranscribing_id now)]
              simpa using hsome
            · rw [find?_updateFile_ne _ _ _ _ (markError_id now) hne,
                find?_updateFile_ne _ _ _ _ (markTranscribing_id now) hne]
              exact hsome
          by_cases hrest : fid ∈ requestedIds (batchLoop resp now false orig rest
              (updateFile (updateFile files fid0 (markTranscribing now)) fid0
                (markError now))).2
          · exact ih _ fid hrest hsome2
          · have hfid : fid = fid0 := by
              rw [requestedIds_setTranscribing, requestedIds_request,
                requestedIds_setError] at hreq
              rcases List.mem_cons.mp hreq with h1 | h1
              · exact h1
              · exact absurd h1 hrest
            subst hfid
            obtain ⟨f0, hf0⟩ := Option.isSome_iff_exists.mp hsome
            refine ⟨markError now (markTranscribing now f0), ?_, ?_⟩
            · rw [batchLoop_frame resp now orig rest _ fid hrest,
                find?_updateFile_self _ _ _ (markError_id now),
                find?_updateFile_self _ _ _ (markTranscribing_id now), hf0]
              rfl
            · rw [hresp]
              rfl

/-- Claim C1: batch transcription is a sequential queue — the loop's event
trace is exactly one block `[set transcribing, request, outcome]` per
eligible selected file, in selection order (so requests are issued one at a
time and each file's status is set to `transcribing` before its request),
truncated at the first HTTP 499 (every remaining file is abandoned); files
already `done` are skipped without a request; each requested file ends
`done` with the returned transcription on success, `error` on failure and
`interrupted` on 499. -/
theorem claim_C1 (resp : Nat → TResp) (now : Rat) (selectedFiles : List Nat)
    (uploadedFiles : List FileRec) (hsel : selectedFiles ≠ []) :
    ((handleBatchTranscribe resp now false false selectedFiles uploadedFiles).2 =
      (truncAt499 resp (eligibleIds uploadedFiles selectedFiles)).flatMap
        (claimBlock resp))
    ∧ requestedIds
        (handleBatchTranscribe resp now false false selectedFiles uploadedFiles).2 =
      truncAt499 resp (eligibleIds uploadedFiles selectedFiles)
    ∧ (eligibleIds uploadedFiles selectedFiles).Sublist selectedFiles
    ∧ (∀ fid ∈ selectedFiles, ∀ f,
        uploadedFiles.find? (fun g => g.id == fid) = some f →
        f.status = FStatus.done →
        fid ∉ requestedIds
          (handleBatchTranscribe resp now false false selectedFiles
            uploadedFiles).2)
    ∧ (∀ fid ∈ requestedIds
          (handleBatchTranscribe resp now false false selectedFiles
            uploadedFiles).2,
        ∃ g, (handleBatchTranscribe resp now false false selectedFiles
            uploadedFiles).1.find? (fun f => f.id == fid) = some g
          ∧ (match resp fid with
              | .ok t => g.status = FStatus.done ∧ g.transcription = some t
              | .fail => g.status = FStatus.error
              | .abort499 => g.status = FStatus.interrupted)) := by
  have hunfold : handleBatchTranscribe resp now false false selectedFiles
      uploadedFiles = batchLoop resp now false uploadedFiles selectedFiles
      uploadedFiles := by
    unfold handleBatchTranscribe
    rw [if_neg (by simp), if_neg (by simpa [List.length_eq_zero] using hsel)]
  have hev := batchLoop_events resp now uploadedFiles selectedFiles uploadedFiles
  have hreqs : requestedIds (handleBatchTranscribe resp now false false
      selectedFiles uploadedFiles).2 =
      truncAt499 resp (eligibleIds uploadedFiles selectedFiles) := by
    rw [hunfold, hev, requestedIds_flatMap]
  refine ⟨by rw [hunfold, hev], hreqs, List.filter_sublist _, ?_, ?_⟩
  · intro fid _ f hfindf hdone hcontra
    rw [hreqs] at hcontra
    obtain ⟨-, f2, hfind2, hne⟩ :=
      mem_eligibleIds (mem_truncAt499 resp _ fid hcontra)
    rw [hfindf] at hfind2
    cases hfind2
    exact hne hdone
  · intro fid hmem
    rw [hreqs] at hmem
    obtain ⟨-, f2, hfind2, -⟩ :=
      mem_eligibleIds (mem_truncAt499 resp _ fid hmem)
    rw [hunfold]
    refine batchLoop_status resp now uploadedFiles selectedFiles uploadedFiles
      fid ?_ (by simp [hfind2])
    rw [← hunfold, hreqs]
    exact hmem

/-- A waiting file, for the C1 witness. -/
def batchFile : FileRec := { id := 3, name := "d", status := .waiting }

theorem claim_C1_witness :
    (([3] : List Nat) ≠ [])
    ∧ requestedIds
        (handleBatchTranscribe (fun _ => TResp.fail) 0 false false [3]
          [batchFile]).2 =
      truncAt499 (fun _ => TResp.fail) (eligibleIds [batchFile] [3]) :=
  ⟨by decide,
    (claim_C1 (fun _ => TResp.fail) 0 [3] [batchFile] (by decide)).2.1⟩

end VideoChat
